import Mathlib

/-!
Verification of the Scheme interpreter core of this repository
(`lisp_2.py`, together with the earlier front end in `lisp_1.py`).

The embedding follows the Python source closely:
* parsed expressions (`Expr`) are Python ints / floats / strings / lists;
  Python floats are modelled as exact rationals (no claim below observes
  floating-point rounding, infinities or NaN);
* runtime values (`Value`) are numbers, booleans, `None` (the empty list),
  `Pair` cells, `Functions` closures and builtin procedures;
* the mutable frame chain is an explicit heap (`Heap`) of frames addressed
  by allocation index, with `parent = none` standing for the root
  `scheme_builtins` dictionary;
* Python exceptions are the error type `Err`; the Scheme taxonomy
  (`SchemeSyntaxError`, `SchemeNameError`, `SchemeEvaluationError`) is kept
  separate from host-level Python errors (`ZeroDivisionError`, `ValueError`,
  `TypeError`, `IndexError`, `AttributeError`);
* the recursive evaluator is indexed by fuel; `Err.stuck` marks fuel
  exhaustion or a dangling frame index, neither of which is reachable from a
  run started with enough fuel on a well-formed heap.
-/

namespace Lisp2

/-- Parsed expressions, as produced by `parse` in `lisp_2.py`: numbers are
Python ints or floats, symbols are Python strings, S-expressions are Python
lists. -/
inductive Expr where
  | int (n : Int)
  | float (q : ℚ)
  | sym (s : String)
  | elist (es : List Expr)

mutual

/-- Structural equality of expressions (decidable equality is derived from
it below; the automatic derivation does not handle the nested list). -/
def Expr.beq : Expr → Expr → Bool
  | .int a, .int b => a == b
  | .float a, .float b => a == b
  | .sym a, .sym b => a == b
  | .elist as, .elist bs => Expr.beqList as bs
  | _, _ => false
  termination_by structural a _ => a

/-- Structural equality of expression lists. -/
def Expr.beqList : List Expr → List Expr → Bool
  | [], [] => true
  | a :: as, b :: bs => Expr.beq a b && Expr.beqList as bs
  | _, _ => false
  termination_by structural as _ => as

end

mutual

theorem Expr.beq_iff : ∀ (a b : Expr), Expr.beq a b = true ↔ a = b
  | .int n, b => by cases b <;> simp [Expr.beq]
  | .float q, b => by cases b <;> simp [Expr.beq]
  | .sym s, b => by cases b <;> simp [Expr.beq]
  | .elist as, b => by
      cases b <;> simp only [Expr.beq, Bool.false_eq_true, false_iff, reduceCtorEq,
        not_false_eq_true, Expr.elist.injEq]
      exact Expr.beqList_iff as _

theorem Expr.beqList_iff : ∀ (as bs : List Expr), Expr.beqList as bs = true ↔ as = bs
  | [], bs => by cases bs <;> simp [Expr.beqList]
  | a :: as, bs => by
      cases bs with
      | nil => simp [Expr.beqList]
      | cons b bs =>
        simp only [Expr.beqList, Bool.and_eq_true, List.cons.injEq]
        rw [Expr.beq_iff a b, Expr.beqList_iff as bs]

end

instance : DecidableEq Expr := fun a b => decidable_of_iff _ (Expr.beq_iff a b)

/-! ### Models of the Python `str` methods used by `tokenize` -/

/-- Model of Python `str.splitlines` (covering the line breaks `\n`, `\r\n`
and `\r`; the exotic unicode line separators are not used by this
repository). -/
def splitlinesAux : List Char → List Char → List (List Char)
  | [], [] => []
  | [], acc => [acc.reverse]
  | '\r' :: '\n' :: rest, acc => acc.reverse :: splitlinesAux rest []
  | '\n' :: rest, acc => acc.reverse :: splitlinesAux rest []
  | '\r' :: rest, acc => acc.reverse :: splitlinesAux rest []
  | c :: rest, acc => splitlinesAux rest (c :: acc)

/-- Python `source.splitlines()`. -/
def pySplitlines (s : String) : List String :=
  (splitlinesAux s.toList []).map String.mk

/-- Python `line.partition(sep)`, returning the part before the first
occurrence of `sep` and the part after it (both empty-comment behaviour and
absent-separator behaviour agree with Python). -/
def pyPartition (line sep : String) : String × String :=
  match line.splitOn sep with
  | [] => (line, "")
  | e :: rest => (e, String.intercalate sep rest)

/-- Python `s.split()` with no arguments: split on runs of whitespace,
discarding empty pieces. -/
def pySplit (s : String) : List String :=
  (s.split Char.isWhitespace).filter (· ≠ "")

/-! ### Tokenizer (`tokenize` in `lisp_2.py`) -/

/-- The per-line step of `tokenize`: split the line at the first `;` into
code and comment, re-append a single `)` when the comment contains one, pad
parentheses with spaces and split on whitespace. -/
def tokenizeLine (line : String) : List String :=
  let p := pyPartition line ";"
  let expression := p.1
  let comment := p.2
  let expression := if comment.contains ')' then expression ++ ")" else expression
  let newExp := expression.replace "(" " ( "
  let newExp := newExp.replace ")" " ) "
  pySplit newExp

/-- `tokenize` of `lisp_2.py`: process the source line by line and
concatenate the resulting tokens. -/
def tokenize (source : String) : List String :=
  (pySplitlines source).foldl (fun acc line => acc ++ tokenizeLine line) []

/-! ### Number parsing (`number_or_symbol`) -/

/-- Value of a nonempty all-digit character list, `none` otherwise. -/
def digitsVal (cs : List Char) : Option Nat :=
  if cs ≠ [] ∧ cs.all Char.isDigit then
    some (cs.foldl (fun a c => a * 10 + (c.toNat - 48)) 0)
  else none

/-- Model of Python `int(s)` on a whitespace-free token: optional sign
followed by at least one decimal digit.  (Underscore separators and unicode
digits are accepted by Python but are not modelled; no claim depends on
them.) -/
def parseIntStr (s : String) : Option Int :=
  match s.toList with
  | '+' :: cs => (digitsVal cs).map Int.ofNat
  | '-' :: cs => (digitsVal cs).map (fun n => -(n : Int))
  | cs => (digitsVal cs).map Int.ofNat

/-- Digits of a possibly empty digit run: its value, or `none` when a
non-digit occurs. -/
def digitsVal? (cs : List Char) : Option Nat :=
  if cs.all Char.isDigit then
    some (cs.foldl (fun a c => a * 10 + (c.toNat - 48)) 0)
  else none

/-- Mantissa `intpart[.fracpart]` of a float literal, as an exact rational;
at least one digit must be present overall. -/
def parseMantissa (cs : List Char) : Option ℚ :=
  let intPart := cs.takeWhile (· ≠ '.')
  let rest := cs.dropWhile (· ≠ '.')
  match rest with
  | [] => (digitsVal intPart).map (fun n => (n : ℚ))
  | '.' :: fracPart =>
    if intPart = [] ∧ fracPart = [] then none
    else
      match digitsVal? intPart, digitsVal? fracPart with
      | some i, some f => some ((i : ℚ) + (f : ℚ) / ((10 : ℚ) ^ fracPart.length))
      | _, _ => none
  | _ => none

/-- Unsigned float literal `mantissa[(e|E)[sign]digits]`. -/
def parseUnsignedFloat (cs : List Char) : Option ℚ :=
  let mant := cs.takeWhile (fun c => c ≠ 'e' ∧ c ≠ 'E')
  let rest := cs.dropWhile (fun c => c ≠ 'e' ∧ c ≠ 'E')
  match rest with
  | [] => parseMantissa mant
  | _ :: expPart =>
    let expVal : Option Int :=
      match expPart with
      | '+' :: ds => (digitsVal ds).map Int.ofNat
      | '-' :: ds => (digitsVal ds).map (fun n => -(n : Int))
      | ds => (digitsVal ds).map Int.ofNat
    match parseMantissa mant, expVal with
    | some m, some e => some (m * (10 : ℚ) ^ e)
    | _, _ => none

/-- Model of Python `float(s)` on a token (the literal forms `inf`/`nan`
and underscore separators are not modelled; the value is kept as an exact
rational since no claim observes binary rounding). -/
def parseFloatStr (s : String) : Option ℚ :=
  match s.toList with
  | '+' :: cs => parseUnsignedFloat cs
  | '-' :: cs => (parseUnsignedFloat cs).map Neg.neg
  | cs => parseUnsignedFloat cs

/-- `number_or_symbol` of `lisp_2.py`: try `int(value)`, then
`float(value)`, else keep the string. -/
def number_or_symbol (value : String) : Expr :=
  match parseIntStr value with
  | some n => .int n
  | none =>
    match parseFloatStr value with
    | some q => .float q
    | none => .sym value

/-! ### Errors

The three concrete Scheme errors of the source, plus the host-level Python
exceptions that the source can raise or let escape.  `stuck` is a
model-internal marker for fuel exhaustion or a dangling frame index; it is
unreachable from a run started with sufficient fuel on a well-formed heap,
and no theorem below rests on it. -/
inductive Err where
  | schemeSyntaxError
  | schemeNameError
  | schemeEvalError
  | zeroDivisionError
  | valueError
  | typeError
  | indexError
  | attributeError
  | stuck
deriving DecidableEq

/-- The `except SchemeError` test of the REPL driver: which errors belong to
the interpreter's own Scheme taxonomy. -/
def isSchemeError : Err → Bool
  | .schemeSyntaxError => true
  | .schemeNameError => true
  | .schemeEvalError => true
  | _ => false

/-! ### Parser (`parse` in `lisp_2.py`)

`parse_expression(index)` is embedded as `parseE tokens fuel index`; the
`while tokens[curr_index] != ")"` loop of the compound case is the mutual
function `parseLoop`.  The fuel argument only serves termination: every
recursive call decreases it, and `parse` supplies `2 * tokens.length + 2`,
which is shown below to be always sufficient. -/

mutual

/-- One `parse_expression(index)` call: number atom, compound expression,
stray `)` (a `SchemeSyntaxError`), or symbol atom.  Reading `tokens[index]`
out of range is Python's `IndexError` (reachable only for the empty token
list, where `parse` starts at index 0). -/
def parseE (ts : List String) : Nat → Nat → Except Err (Expr × Nat)
  | 0, _ => .error .stuck
  | fuel + 1, index =>
    match ts[index]? with
    | none => .error .indexError
    | some tok =>
      match number_or_symbol tok with
      | .int n => .ok (.int n, index + 1)
      | .float q => .ok (.float q, index + 1)
      | _ =>
        if tok = "(" then
          -- `curr_index = index + 1; if curr_index > num_char - 1: raise`
          if index + 1 ≥ ts.length then .error .schemeSyntaxError
          else parseLoop ts fuel (index + 1) []
        else if tok = ")" then .error .schemeSyntaxError
        else .ok (.sym tok, index + 1)
  termination_by structural fuel _ => fuel

/-- The sub-expression loop of the compound case: stop at `)`, otherwise
parse one sub-expression, re-check the bound
(`if curr_index > num_char - 1: raise`), and continue. -/
def parseLoop (ts : List String) : Nat → Nat → List Expr → Except Err (Expr × Nat)
  | 0, _, _ => .error .stuck
  | fuel + 1, curr, acc =>
    match ts[curr]? with
    | none => .error .stuck
    | some tok =>
      if tok = ")" then .ok (.elist acc, curr + 1)
      else
        match parseE ts fuel curr with
        | .error e => .error e
        | .ok (e, upcoming) =>
          if upcoming ≥ ts.length then .error .schemeSyntaxError
          else parseLoop ts fuel upcoming (acc ++ [e])
  termination_by structural fuel _ _ => fuel

end

/-- `parse` of `lisp_2.py`: parse one expression from index 0 and reject
unconsumed trailing tokens. -/
def parse (tokens : List String) : Except Err Expr :=
  match parseE tokens (2 * tokens.length + 2) 0 with
  | .error e => .error e
  | .ok (parsedExpression, nextIndex) =>
    if nextIndex < tokens.length then .error .schemeSyntaxError
    else .ok parsedExpression

/-! ### Runtime values

Python `Pair` cells are mutable two-field objects, but the source never
mutates a pair that has already escaped (`list_append` only assigns to the
`cdr` of pairs it has just allocated), so pairs are modelled as an
immutable constructor.  Closures (`Functions` objects) store the unevaluated
body, the parameter expression `tree[1]` exactly as written, and the index
of the captured defining frame. -/

/-- Names of the native procedures held by the `scheme_builtins` table. -/
inductive BuiltinName where
  | add | sub | mul | div | equal | greater | ge | less | le | notF
  | cons | car | cdr | listF | checkList | lenList | listIndex | listAppend
  | mapF | filterF | reduceF | begin
deriving DecidableEq

/-- Scheme runtime values. -/
inductive Value where
  | int (n : Int)
  | float (q : ℚ)
  | bool (b : Bool)
  | none
  | pair (car cdr : Value)
  | closure (param : Expr) (body : Expr) (frame : Nat)
  | builtin (b : BuiltinName)

instance : Inhabited Value := ⟨.none⟩

/-- Python `isinstance(v, Pair)`. -/
def Value.isPair : Value → Bool
  | .pair _ _ => true
  | _ => false

/-- Python truthiness of a Scheme value (`if not …` tests in the source):
`False`, `0`, `0.0` and `None` are falsy, everything else truthy. -/
def pyTruthy : Value → Bool
  | .int n => n ≠ 0
  | .float q => q ≠ 0
  | .bool b => b
  | .none => false
  | _ => true

/-- Python `callable(…)` on a Scheme value. -/
def pyCallable : Value → Bool
  | .closure _ _ _ => true
  | .builtin _ => true
  | _ => false

/-- Numeric view of a value, as in Python arithmetic: ints, floats and
booleans (with `True = 1`, `False = 0`) are numbers, nothing else is. -/
inductive PyNum where
  | i (n : Int)
  | f (q : ℚ)

def toNum : Value → Option PyNum
  | .int n => some (.i n)
  | .float q => some (.f q)
  | .bool b => some (.i (if b then 1 else 0))
  | _ => Option.none

def PyNum.toQ : PyNum → ℚ
  | .i n => (n : ℚ)
  | .f q => q

def PyNum.toVal : PyNum → Value
  | .i n => .int n
  | .f q => .float q

/-- Python `+` on numbers: int when both operands are int, float as soon as
one is a float. -/
def numAdd : PyNum → PyNum → PyNum
  | .i a, .i b => .i (a + b)
  | a, b => .f (a.toQ + b.toQ)

def numSub : PyNum → PyNum → PyNum
  | .i a, .i b => .i (a - b)
  | a, b => .f (a.toQ - b.toQ)

def numMul : PyNum → PyNum → PyNum
  | .i a, .i b => .i (a * b)
  | a, b => .f (a.toQ * b.toQ)

/-- Python true division: always a float; a zero divisor raises
`ZeroDivisionError` (for int and float divisors alike). -/
def numDiv (a b : PyNum) : Except Err PyNum :=
  if b.toQ = 0 then .error .zeroDivisionError
  else .ok (.f (a.toQ / b.toQ))

/-- Python `==` on Scheme values, exact on the identity-free fragment:
numbers and booleans compare numerically across types, `None` equals only
itself, and two builtin procedures are equal exactly when they are the same
table entry (each builtin name holds a single function object).  Python
compares `Pair` and `Functions` objects by *object identity*, which a pure
value model does not carry; for those two cases `pyEq` extends `==`
structurally, over-approximating it on distinct but structurally equal
pairs or closures.  Theorems about `equal` are therefore stated over
identity-free arguments (`idFree` below), on which `pyEq` is exactly
Python `==`; the only other `==` in the source on a possibly-pair value,
the `index != 0` test of `list_index`, compares against the int `0`, where
the pair and closure cases are `False` in Python and in the model alike. -/
def pyEq : Value → Value → Bool
  | .pair a b, .pair c d => pyEq a c && pyEq b d
  | .closure p1 b1 f1, .closure p2 b2 f2 => Expr.beq p1 p2 && Expr.beq b1 b2 && f1 == f2
  | .builtin a, .builtin b => a == b
  | .none, .none => true
  | v, w =>
    match toNum v, toNum w with
    | some a, some b => a.toQ == b.toQ
    | _, _ => false

/-- Values on which Python `==` is determined by the value alone: numbers,
booleans, `None`, and builtin procedures (each builtin name denotes one
function object shared by all its occurrences).  `Pair` and `Functions`
objects are excluded: the host compares them by object identity, so their
equality is not a function of the modelled value. -/
def idFree : Value → Bool
  | .pair _ _ => false
  | .closure _ _ _ => false
  | _ => true

/-! ### Frames (`Frames` in `lisp_2.py`)

A frame is a mutable dictionary of bindings plus one parent reference;
`parent = none` stands for the root `scheme_builtins` dictionary, which is
the parent a `Frames()` call installs when no grandparent is supplied.
The heap is the list of all frames ever created, addressed by allocation
index.

Python dictionary keys are the raw `tree[…]` objects; `define`, `let`,
`del` and closure parameter binding can therefore use non-string keys, so
the binding tables are keyed by `Expr`.  Two keys collide when they are
`==` in Python (numeric equality across int/float, string equality for
symbols); a list key raises `TypeError` (unhashable) before any
comparison. -/

structure FrameData where
  parent : Option Nat
  children : List (Expr × Value)

abbrev Heap := List FrameData

/-- Python `==` on dictionary keys (expression atoms). -/
def keyEq : Expr → Expr → Bool
  | .int a, .int b => a == b
  | .int a, .float b => (a : ℚ) == b
  | .float a, .int b => a == (b : ℚ)
  | .float a, .float b => a == b
  | .sym a, .sym b => a == b
  | _, _ => false

/-- Python hashability of a key: lists are unhashable. -/
def hashableKey : Expr → Bool
  | .elist _ => false
  | _ => true

def dictFind (m : List (Expr × Value)) (k : Expr) : Option Value :=
  (m.find? (fun p => keyEq p.1 k)).map (·.2)

def dictMem (m : List (Expr × Value)) (k : Expr) : Bool :=
  (m.find? (fun p => keyEq p.1 k)).isSome

/-- Python `d[k] = v`: overwrite in place when an equal key is present,
append otherwise. -/
def dictInsert (m : List (Expr × Value)) (k : Expr) (v : Value) : List (Expr × Value) :=
  if dictMem m k then m.map (fun p => if keyEq p.1 k then (p.1, v) else p)
  else m ++ [(k, v)]

/-- Python `d.pop(k)` (the removal part). -/
def dictErase (m : List (Expr × Value)) (k : Expr) : List (Expr × Value) :=
  m.filter (fun p => ¬ keyEq p.1 k)

/-- The root `scheme_builtins` table of `lisp_2.py`. -/
def scheme_builtins : String → Option Value
  | "+" => some (.builtin .add)
  | "-" => some (.builtin .sub)
  | "*" => some (.builtin .mul)
  | "/" => some (.builtin .div)
  | "#t" => some (.bool true)
  | "#f" => some (.bool false)
  | "equal?" => some (.builtin .equal)
  | ">" => some (.builtin .greater)
  | ">=" => some (.builtin .ge)
  | "<" => some (.builtin .less)
  | "<=" => some (.builtin .le)
  | "not" => some (.builtin .notF)
  | "cons" => some (.builtin .cons)
  | "car" => some (.builtin .car)
  | "cdr" => some (.builtin .cdr)
  | "list" => some (.builtin .listF)
  | "list?" => some (.builtin .checkList)
  | "length" => some (.builtin .lenList)
  | "list-ref" => some (.builtin .listIndex)
  | "append" => some (.builtin .listAppend)
  | "map" => some (.builtin .mapF)
  | "filter" => some (.builtin .filterF)
  | "reduce" => some (.builtin .reduceF)
  | "begin" => some (.builtin .begin)
  | _ => Option.none

/-- `Frames.__getitem__`, walking the parent chain; at the root the lookup
consults `scheme_builtins`, whose `KeyError` the source converts to
`SchemeNameError`.  The fuel only serves termination; `fid + 1` frames is
always enough on a heap whose parents point to earlier frames. -/
def lookupVarF : Nat → Heap → Nat → String → Except Err Value
  | 0, _, _, _ => .error .stuck
  | fuel + 1, s, fid, var =>
    match s[fid]? with
    | Option.none => .error .stuck
    | some fr =>
      match dictFind fr.children (.sym var) with
      | some val => .ok val
      | Option.none =>
        match fr.parent with
        | some p => lookupVarF fuel s p var
        | Option.none =>
          match scheme_builtins var with
          | some val => .ok val
          | Option.none => .error .schemeNameError

def lookupVar (s : Heap) (fid : Nat) (var : String) : Except Err Value :=
  lookupVarF (fid + 1) s fid var

/-- `Frames.set_parent`: mutate an existing binding in the nearest frame of
the chain that has one; reaching the root dictionary raises
`AttributeError` there, which the source converts to `SchemeNameError` —
the root table is never mutated.  A list key would be unhashable in the
`var in self.children` test. -/
def setParentF : Nat → Heap → Nat → Expr → Value → Except Err Heap
  | 0, _, _, _, _ => .error .stuck
  | fuel + 1, s, fid, var, val =>
    if ¬ hashableKey var then .error .typeError
    else
      match s[fid]? with
      | Option.none => .error .stuck
      | some fr =>
        if dictMem fr.children var then
          .ok (s.set fid { fr with children := dictInsert fr.children var val })
        else
          match fr.parent with
          | some p => setParentF fuel s p var val
          | Option.none => .error .schemeNameError

def setParent (s : Heap) (fid : Nat) (var : Expr) (val : Value) : Except Err Heap :=
  setParentF (fid + 1) s fid var val

/-- `Frames.__setitem__` / direct `frame.children[k] = v` on frame `fid`. -/
def setLocal (s : Heap) (fid : Nat) (k : Expr) (v : Value) : Except Err Heap :=
  if ¬ hashableKey k then .error .typeError
  else
    match s[fid]? with
    | Option.none => .error .stuck
    | some fr => .ok (s.set fid { fr with children := dictInsert fr.children k v })

/-! ### Builtin procedures without callable arguments

Each builtin receives its Python argument list; `args[i]` on a short list
is Python's `IndexError`. -/

/-- Python list indexing `args[i]` (nonnegative index). -/
def pyGetV (args : List Value) (i : Nat) : Except Err Value :=
  match args[i]? with
  | some v => .ok v
  | Option.none => .error .indexError

/-- Python attribute access `v.car`: only a `Pair` has it. -/
def carOf : Value → Except Err Value
  | .pair a _ => .ok a
  | _ => .error .attributeError

/-- Python attribute access `v.cdr`. -/
def cdrOf : Value → Except Err Value
  | .pair _ d => .ok d
  | _ => .error .attributeError

/-- Python `sum(args)`: left fold starting from the int `0`; a non-numeric
summand is a `TypeError`. -/
def pySum (args : List Value) : Except Err Value := do
  let r ← args.foldlM (fun acc v =>
    match toNum v with
    | some n => .ok (numAdd acc n)
    | Option.none => .error .typeError) (PyNum.i 0)
  .ok r.toVal

/-- The `-` lambda of `scheme_builtins`:
`-args[0] if len(args) == 1 else (args[0] - sum(args[1:]))`. -/
def subProc (args : List Value) : Except Err Value :=
  if args.length = 1 then
    match toNum args.head! with
    | some n => .ok (numSub (.i 0) n).toVal
    | Option.none => .error .typeError
  else do
    let a0 ← pyGetV args 0
    let t ← pySum args.tail
    match toNum a0, toNum t with
    | some x, some y => .ok (numSub x y).toVal
    | _, _ => .error .typeError

/-- `mul`: fold `result *= num` from the int `1`. -/
def mul (args : List Value) : Except Err Value := do
  let r ← args.foldlM (fun acc v =>
    match toNum v with
    | some n => .ok (numMul acc n)
    | Option.none => .error .typeError) (PyNum.i 1)
  .ok r.toVal

/-- `div`: an empty argument list raises a host `ValueError`; one argument
is the reciprocal `1 / result`; otherwise fold `result /= num`.  A zero
divisor raises a host `ZeroDivisionError` — not a `SchemeEvaluationError`. -/
def div (args : List Value) : Except Err Value :=
  match args with
  | [] => .error .valueError
  | [a] => do
    match toNum a with
    | some n => (numDiv (.i 1) n).map PyNum.toVal
    | Option.none => .error .typeError
  | a :: rest => do
    let a0 ← match toNum a with
      | some n => Except.ok n
      | Option.none => Except.error Err.typeError
    let r ← rest.foldlM (fun acc v =>
      match toNum v with
      | some n => numDiv acc n
      | Option.none => .error .typeError) a0
    .ok r.toVal

/-- The insertion step of Python `set(args)` construction, with duplicates
detected by `==`. -/
def pySetInsert (s : List Value) (v : Value) : List Value :=
  if s.any (fun w => pyEq w v) then s else s ++ [v]

/-- Python `set(args)` as a duplicate-free list in first-occurrence order. -/
def pySet (args : List Value) : List Value :=
  args.foldl pySetInsert []

/-- `equal`: `len(set(args)) == 1`. -/
def equal (args : List Value) : Except Err Value :=
  .ok (.bool ((pySet args).length == 1))

/-- The shared shape of `greater`/`ge`/`less`/`le`: scan every adjacent
pair (the loops do not break early), clearing the flag when `viol` holds;
comparing a non-number is a `TypeError`. -/
def cmpFold (viol : ℚ → ℚ → Bool) (args : List Value) : Except Err Value := do
  let r ← (args.zip args.tail).foldlM (fun ok p =>
    match toNum p.1, toNum p.2 with
    | some a, some b => .ok (ok && ¬ viol a.toQ b.toQ)
    | _, _ => .error .typeError) true
  .ok (.bool r)

/-- `greater` (builtin `>`): violation when `args[i] <= args[i+1]`. -/
def greater (args : List Value) : Except Err Value :=
  cmpFold (fun a b => a ≤ b) args

/-- `ge` (builtin `>=`): violation when `args[i] < args[i+1]`. -/
def ge (args : List Value) : Except Err Value :=
  cmpFold (fun a b => a < b) args

/-- `less` (builtin `<`): violation when `args[i] >= args[i+1]`. -/
def less (args : List Value) : Except Err Value :=
  cmpFold (fun a b => b ≤ a) args

/-- `le` (builtin `<=`): violation when `args[i] > args[i+1]`. -/
def le (args : List Value) : Except Err Value :=
  cmpFold (fun a b => b < a) args

/-- `not_func`. -/
def not_func (args : List Value) : Except Err Value :=
  if args.length ≠ 1 then .error .schemeEvalError
  else .ok (.bool (¬ pyTruthy args.head!))

/-- `cons`. -/
def cons (args : List Value) : Except Err Value :=
  match args with
  | [a, b] => .ok (.pair a b)
  | _ => .error .schemeEvalError

/-- `car`. -/
def car (args : List Value) : Except Err Value :=
  match args with
  | [.pair a _] => .ok a
  | _ => .error .schemeEvalError

/-- `cdr`. -/
def cdr (args : List Value) : Except Err Value :=
  match args with
  | [.pair _ d] => .ok d
  | _ => .error .schemeEvalError

/-- `list_func`: right-nested pairs ending in `None`. -/
def list_func : List Value → Value
  | [] => .none
  | a :: rest => .pair a (list_func rest)

/-- `check_list` on one value: `None`, or a pair whose `cdr` is recursively
a list.  (The Python version loops forever on a cyclic list; the model has
no cyclic values.) -/
def check_list : Value → Bool
  | .none => true
  | .pair _ d => check_list d
  | _ => false

/-- Length of the pair chain reached by following `cdr` links (the
`while current is not None` count of `len_list`, meaningful after
`check_list` has passed). -/
def chainLen : Value → Nat
  | .pair _ d => chainLen d + 1
  | _ => 0

/-- `len_list` applied to `[v]`. -/
def len_list (v : Value) : Except Err Nat :=
  if ¬ check_list v then .error .schemeEvalError
  else .ok (chainLen v)

/-- `for i in range(k): current = current.cdr` starting from `v`. -/
def walkCdr : Nat → Value → Except Err Value
  | 0, v => .ok v
  | k + 1, .pair _ d => walkCdr k d
  | _ + 1, _ => .error .attributeError

/-- `list_index`: the bare-pair special case for index 0, the
`index >= len_list` range check, then the `range(index)` walk.  The walk
count must be an int (or bool); `range(float)` is a `TypeError`.  A
negative index is never `>= len`, so it walks zero links and takes the
`car` of the start value. -/
def list_index (args : List Value) : Except Err Value := do
  let current ← pyGetV args 0
  let index ← pyGetV args 1
  if ¬ check_list current ∧ current.isPair then
    -- `if index != 0: raise SchemeEvaluationError` then `return args[0].car`
    if ¬ pyEq index (.int 0) then .error .schemeEvalError
    else carOf current
  else do
    let n ← len_list current
    match toNum index with
    | Option.none => .error .typeError
    | some idx =>
      if (n : ℚ) ≤ idx.toQ then .error .schemeEvalError
      else
        match index with
        | .int i => do
          let c ← walkCdr i.toNat current
          carOf c
        | .bool b => do
          let c ← walkCdr (if b then 1 else 0) current
          carOf c
        | _ => .error .typeError

/-- Elements of a (checked) proper list. -/
def chainElems : Value → List Value
  | .pair a d => a :: chainElems d
  | _ => []

/-- `list_append`: every argument must be a proper list; the result is a
fresh list holding the concatenation of their elements (`head` stays `None`
when every argument is empty). -/
def list_append (args : List Value) : Except Err Value := do
  let parts ← args.mapM (fun a =>
    if ¬ check_list a then Except.error Err.schemeEvalError
    else Except.ok (chainElems a))
  .ok (list_func parts.flatten)

/-- `begin`: `args[-1]`. -/
def begin (args : List Value) : Except Err Value :=
  match args.getLast? with
  | some v => .ok v
  | Option.none => .error .indexError

/-! ### Evaluator (`evaluate` in `lisp_2.py`)

The recursion is indexed by fuel; every mutual call strictly decreases it.
A run started with enough fuel never returns `Err.stuck`. -/

/-- Python list indexing `tree[i]` on an expression list. -/
def pyGet (l : List Expr) (i : Nat) : Except Err Expr :=
  match l[i]? with
  | some e => .ok e
  | Option.none => .error .indexError

/-- Python subscript `exp[i]` on an arbitrary expression: lists index
normally, a string yields its `i`-th character as a one-character string,
numbers are not subscriptable. -/
def pySubscript : Expr → Nat → Except Err Expr
  | .elist l, i => pyGet l i
  | .sym str, i =>
    match str.toList[i]? with
    | some c => .ok (.sym (String.mk [c]))
    | Option.none => .error .indexError
  | _, _ => .error .typeError

/-- Python `for exp in tree[1]`: a list iterates its members, a string its
one-character substrings, numbers are not iterable. -/
def iterExprs : Expr → Except Err (List Expr)
  | .elist l => .ok l
  | .sym str => .ok (str.toList.map fun c => Expr.sym (String.mk [c]))
  | _ => .error .typeError

/-- `len(self.param)` / `self.param[i]` in `Functions.__call__`: a list
parameter expression gives its members, a string its characters (Python
`len`/indexing on `str`), and a number raises `TypeError`. -/
def paramList : Expr → Except Err (List Expr)
  | .elist l => .ok l
  | .sym str => .ok (str.toList.map fun c => Expr.sym (String.mk [c]))
  | _ => .error .typeError

/-- The parameter-binding loop of `Functions.__call__`, building the
children table of the fresh invocation frame (a list-valued parameter name
would be an unhashable dictionary key). -/
def mkChildren (ps : List Expr) (args : List Value) : Except Err (List (Expr × Value)) :=
  (ps.zip args).foldlM (fun m kv =>
    if hashableKey kv.1 then .ok (dictInsert m kv.1 kv.2)
    else .error Err.typeError) []

mutual

/-- `evaluate(tree, frame)` over the heap `s`.  The literal `"nil"` check
precedes the symbol lookup; the final catch-all `raise
SchemeEvaluationError` receives the empty compound expression (and any
non-atom, non-list tree, which cannot occur here). -/
def evaluateF : Nat → Expr → Nat → Heap → Except Err (Value × Heap)
  | 0, _, _, _ => .error .stuck
  | fuel + 1, tree, frame, s =>
    if tree = Expr.sym "nil" then .ok (.none, s)
    else
      match tree with
      | .sym var =>
        match lookupVar s frame var with
        | .ok v => .ok (v, s)
        | .error e => .error e
      | .int n => .ok (.int n, s)
      | .float q => .ok (.float q, s)
      | .elist [] => .error .schemeEvalError
      | .elist (t0 :: rest) =>
        let tr := t0 :: rest
        if t0 = Expr.sym "define" then do
          let t1 ← pyGet tr 1
          match t1 with
          | .sym name => do
            let t2 ← pyGet tr 2
            let (v, s1) ← evaluateF fuel t2 frame s
            let s2 ← setLocal s1 frame (.sym name) v
            .ok (v, s2)
          | .elist l => do
            let body ← pyGet tr 2
            let func := Value.closure (.elist l.tail) body frame
            match l with
            | [] => .error .indexError
            | k :: _ => do
              let s1 ← setLocal s frame k func
              .ok (func, s1)
          | _ => .error .schemeSyntaxError
        else if t0 = Expr.sym "lambda" then do
          let t1 ← pyGet tr 1
          let t2 ← pyGet tr 2
          .ok (Value.closure t1 t2 frame, s)
        else if t0 = Expr.sym "if" then do
          let t1 ← pyGet tr 1
          let (c, s1) ← evaluateF fuel t1 frame s
          if pyTruthy c then do
            let t2 ← pyGet tr 2
            evaluateF fuel t2 frame s1
          else do
            let t3 ← pyGet tr 3
            evaluateF fuel t3 frame s1
        else if t0 = Expr.sym "and" then
          evalAnd fuel rest frame s
        else if t0 = Expr.sym "or" then
          evalOr fuel rest frame s
        else if t0 = Expr.sym "del" then do
          let t1 ← pyGet tr 1
          if ¬ hashableKey t1 then .error .typeError
          else
            match s[frame]? with
            | Option.none => .error .stuck
            | some fr =>
              match dictFind fr.children t1 with
              | Option.none => .error .schemeNameError
              | some v =>
                .ok (v, s.set frame { fr with children := dictErase fr.children t1 })
        else if t0 = Expr.sym "let" then do
          let t1 ← pyGet tr 1
          let bs ← iterExprs t1
          let fid := s.length
          let s1 := s ++ [⟨some frame, []⟩]
          let s2 ← evalBindings fuel bs fid s1
          let t2 ← pyGet tr 2
          evaluateF fuel t2 fid s2
        else if t0 = Expr.sym "set!" then do
          let t2 ← pyGet tr 2
          let (v, s1) ← evaluateF fuel t2 frame s
          let t1 ← pyGet tr 1
          let s2 ← setParent s1 frame t1 v
          .ok (v, s2)
        else do
          let (f, s1) ← evaluateF fuel t0 frame s
          if ¬ pyCallable f then .error .schemeEvalError
          else do
            let (args, s2) ← evalArgs fuel rest frame s1
            applyF fuel f args s2
  termination_by structural fuel _ _ _ => fuel

/-- The argument list comprehension
`[evaluate(subtree, frame) for subtree in tree[1:]]`. -/
def evalArgs : Nat → List Expr → Nat → Heap → Except Err (List Value × Heap)
  | 0, _, _, _ => .error .stuck
  | _ + 1, [], _, s => .ok ([], s)
  | fuel + 1, e :: es, frame, s => do
    let (v, s1) ← evaluateF fuel e frame s
    let (vs, s2) ← evalArgs fuel es frame s1
    .ok (v :: vs, s2)
  termination_by structural fuel _ _ _ => fuel

/-- The `and` loop: return `False` at the first falsy operand, leaving the
remaining operands unevaluated. -/
def evalAnd : Nat → List Expr → Nat → Heap → Except Err (Value × Heap)
  | 0, _, _, _ => .error .stuck
  | _ + 1, [], _, s => .ok (.bool true, s)
  | fuel + 1, e :: es, frame, s => do
    let (v, s1) ← evaluateF fuel e frame s
    if ¬ pyTruthy v then .ok (.bool false, s1)
    else evalAnd fuel es frame s1
  termination_by structural fuel _ _ _ => fuel

/-- The `or` loop: return `True` at the first truthy operand. -/
def evalOr : Nat → List Expr → Nat → Heap → Except Err (Value × Heap)
  | 0, _, _, _ => .error .stuck
  | _ + 1, [], _, s => .ok (.bool false, s)
  | fuel + 1, e :: es, frame, s => do
    let (v, s1) ← evaluateF fuel e frame s
    if pyTruthy v then .ok (.bool true, s1)
    else evalOr fuel es frame s1
  termination_by structural fuel _ _ _ => fuel

/-- The `let` binding loop: evaluate `exp[1]` in the new frame, then bind
`exp[0]` there, in listed order. -/
def evalBindings : Nat → List Expr → Nat → Heap → Except Err Heap
  | 0, _, _, _ => .error .stuck
  | _ + 1, [], _, s => .ok s
  | fuel + 1, exp :: bs, fid, s => do
    let e1 ← pySubscript exp 1
    let (v, s1) ← evaluateF fuel e1 fid s
    let k ← pySubscript exp 0
    let s2 ← setLocal s1 fid k v
    evalBindings fuel bs fid s2
  termination_by structural fuel _ _ _ => fuel

/-- Procedure application.  A closure (`Functions.__call__`) checks the
argument count, then evaluates its body in a fresh frame whose parent is
the closure's captured frame — the caller's frame is not even an input
here, exactly as in the source.  Builtins dispatch to the native
procedures.  Applying a non-callable would be Python's `TypeError`; it is
unreachable because both call sites test `callable` first. -/
def applyF : Nat → Value → List Value → Heap → Except Err (Value × Heap)
  | 0, _, _, _ => .error .stuck
  | fuel + 1, .closure param body cf, args, s => do
    let ps ← paramList param
    if args.length ≠ ps.length then .error .schemeEvalError
    else do
      let cs ← mkChildren ps args
      evaluateF fuel body s.length (s ++ [⟨some cf, cs⟩])
  | fuel + 1, .builtin b, args, s => applyBuiltin fuel b args s
  | _ + 1, _, _, _ => .error .typeError
  termination_by structural fuel _ _ _ => fuel

/-- Dispatch on the native procedure table.  `map`, `filter` and `reduce`
apply their callable argument and so live inside the mutual recursion. -/
def applyBuiltin : Nat → BuiltinName → List Value → Heap → Except Err (Value × Heap)
  | 0, _, _, _ => .error .stuck
  | fuel + 1, b, args, s =>
    match b with
    | .add => (pySum args).map (·, s)
    | .sub => (subProc args).map (·, s)
    | .mul => (mul args).map (·, s)
    | .div => (div args).map (·, s)
    | .equal => (equal args).map (·, s)
    | .greater => (greater args).map (·, s)
    | .ge => (ge args).map (·, s)
    | .less => (less args).map (·, s)
    | .le => (le args).map (·, s)
    | .notF => (not_func args).map (·, s)
    | .cons => (cons args).map (·, s)
    | .car => (car args).map (·, s)
    | .cdr => (cdr args).map (·, s)
    | .listF => .ok (list_func args, s)
    | .checkList => do
      let a ← pyGetV args 0
      .ok (.bool (check_list a), s)
    | .lenList => do
      let a ← pyGetV args 0
      let n ← len_list a
      .ok (.int n, s)
    | .listIndex => (list_index args).map (·, s)
    | .listAppend => (list_append args).map (·, s)
    | .begin => (begin args).map (·, s)
    | .mapF => do
      let func ← pyGetV args 0
      let ll ← pyGetV args 1
      if ¬ pyCallable func ∨ ¬ check_list ll then .error .schemeEvalError
      else do
        let (rs, s1) ← mapLoop fuel func (chainElems ll) s
        .ok (list_func rs, s1)
    | .filterF => do
      let func ← pyGetV args 0
      let ll ← pyGetV args 1
      if ¬ pyCallable func ∨ ¬ check_list ll then .error .schemeEvalError
      else do
        let (rs, s1) ← filterLoop fuel func (chainElems ll) s
        .ok (list_func rs, s1)
    | .reduceF => do
      let func ← pyGetV args 0
      let ll ← pyGetV args 1
      let initial ← pyGetV args 2
      if ¬ pyCallable func ∨ ¬ check_list ll then .error .schemeEvalError
      else reduceLoop fuel func (chainElems ll) initial s
  termination_by structural fuel _ _ _ => fuel

/-- The element loop of `map_func`. -/
def mapLoop : Nat → Value → List Value → Heap → Except Err (List Value × Heap)
  | 0, _, _, _ => .error .stuck
  | _ + 1, _, [], s => .ok ([], s)
  | fuel + 1, func, v :: vs, s => do
    let (r, s1) ← applyF fuel func [v] s
    let (rs, s2) ← mapLoop fuel func vs s1
    .ok (r :: rs, s2)
  termination_by structural fuel _ _ _ => fuel

/-- The element loop of `filter_func`. -/
def filterLoop : Nat → Value → List Value → Heap → Except Err (List Value × Heap)
  | 0, _, _, _ => .error .stuck
  | _ + 1, _, [], s => .ok ([], s)
  | fuel + 1, func, v :: vs, s => do
    let (r, s1) ← applyF fuel func [v] s
    let (rs, s2) ← filterLoop fuel func vs s1
    .ok (if pyTruthy r then v :: rs else rs, s2)
  termination_by structural fuel _ _ _ => fuel

/-- The accumulator loop of `reduce_func`. -/
def reduceLoop : Nat → Value → List Value → Value → Heap → Except Err (Value × Heap)
  | 0, _, _, _, _ => .error .stuck
  | _ + 1, _, [], acc, s => .ok (acc, s)
  | fuel + 1, func, v :: vs, acc, s => do
    let (r, s1) ← applyF fuel func [acc, v] s
    reduceLoop fuel func vs r s1
  termination_by structural fuel _ _ _ _ => fuel

end

/-- The fresh `Frames()` that `evaluate` installs when called without a
frame: one frame whose parent is the builtin table. -/
def initHeap : Heap := [⟨Option.none, []⟩]

/-- `evaluate(tree)` with a fresh default frame. -/
def evalTop (fuel : Nat) (tree : Expr) : Except Err (Value × Heap) :=
  evaluateF fuel tree 0 initHeap

end Lisp2

namespace Lisp1

/-!
Front end of `lisp_1.py` (`number_or_symbol`, `tokenize`, `parse`).  The
models of the Python builtins (`int`, `float`, and the `str` methods
`splitlines`, `partition`, `replace`, `split`) are the ones defined above;
the repository functions themselves are embedded here again from the
`lisp_1.py` source, which is character-for-character the code of
`lisp_2.py` for these three functions. -/

/-- `number_or_symbol` of `lisp_1.py`. -/
def number_or_symbol (value : String) : Lisp2.Expr :=
  match Lisp2.parseIntStr value with
  | some n => .int n
  | none =>
    match Lisp2.parseFloatStr value with
    | some q => .float q
    | none => .sym value

/-- The per-line step of `tokenize` in `lisp_1.py`. -/
def tokenizeLine (line : String) : List String :=
  let p := Lisp2.pyPartition line ";"
  let expression := p.1
  let comment := p.2
  let expression := if comment.contains ')' then expression ++ ")" else expression
  let newExp := expression.replace "(" " ( "
  let newExp := newExp.replace ")" " ) "
  Lisp2.pySplit newExp

/-- `tokenize` of `lisp_1.py`. -/
def tokenize (source : String) : List String :=
  (Lisp2.pySplitlines source).foldl (fun acc line => acc ++ tokenizeLine line) []

mutual

/-- `parse_expression(index)` of `lisp_1.py`. -/
def parseE (ts : List String) : Nat → Nat → Except Lisp2.Err (Lisp2.Expr × Nat)
  | 0, _ => .error .stuck
  | fuel + 1, index =>
    match ts[index]? with
    | none => .error .indexError
    | some tok =>
      match number_or_symbol tok with
      | .int n => .ok (.int n, index + 1)
      | .float q => .ok (.float q, index + 1)
      | _ =>
        if tok = "(" then
          if index + 1 ≥ ts.length then .error .schemeSyntaxError
          else parseLoop ts fuel (index + 1) []
        else if tok = ")" then .error .schemeSyntaxError
        else .ok (.sym tok, index + 1)
  termination_by structural fuel _ => fuel

/-- The sub-expression loop of `parse_expression` in `lisp_1.py`. -/
def parseLoop (ts : List String) : Nat → Nat → List Lisp2.Expr →
    Except Lisp2.Err (Lisp2.Expr × Nat)
  | 0, _, _ => .error .stuck
  | fuel + 1, curr, acc =>
    match ts[curr]? with
    | none => .error .stuck
    | some tok =>
      if tok = ")" then .ok (.elist acc, curr + 1)
      else
        match parseE ts fuel curr with
        | .error e => .error e
        | .ok (e, upcoming) =>
          if upcoming ≥ ts.length then .error .schemeSyntaxError
          else parseLoop ts fuel upcoming (acc ++ [e])
  termination_by structural fuel _ _ => fuel

end

/-- `parse` of `lisp_1.py`. -/
def parse (tokens : List String) : Except Lisp2.Err Lisp2.Expr :=
  match parseE tokens (2 * tokens.length + 2) 0 with
  | .error e => .error e
  | .ok (parsedExpression, nextIndex) =>
    if nextIndex < tokens.length then .error .schemeSyntaxError
    else .ok parsedExpression

end Lisp1

namespace Lisp2

/-! ## Properties of the interpreter -/

/-- C9: in every frame the symbol `nil` evaluates to the empty-list value
`None` before any frame lookup happens (the heap `s` and frame index are
completely unconstrained, so a heap whose frames bind the name `nil` — via
`define`, `let`, or a closure parameter — gives the same result and the
binding is never consulted; `nil` cannot be shadowed).  The second conjunct
runs a whole program whose `let` binds `nil` to `5` and still reads the
empty list back. -/
theorem nil_shortcut_before_lookup :
    (∀ (fuel frame : Nat) (s : Heap),
      evaluateF (fuel + 1) (.sym "nil") frame s = .ok (.none, s)) ∧
    (evalTop 10 (.elist [.sym "let", .elist [.elist [.sym "nil", .int 5]],
      .sym "nil"])).map Prod.fst = .ok Value.none := by
  constructor
  · intro fuel frame s
    simp [evaluateF]
  · rfl

/-- C2, counterexample: evaluating `(/ 1 0)` in a fresh frame raises the
host `ZeroDivisionError`, which is not the claimed
`SchemeEvaluationError` and lies outside the Scheme error taxonomy that the
REPL's `except SchemeError` recovery boundary catches. -/
theorem div_by_zero_counterexample :
    evalTop 10 (.elist [.sym "/", .int 1, .int 0]) = .error .zeroDivisionError ∧
    Err.zeroDivisionError ≠ Err.schemeEvalError ∧
    isSchemeError .zeroDivisionError = false := by
  refine ⟨rfl, by decide, rfl⟩

/-- C2, amended: a division whose divisor is zero fails with the host
`ZeroDivisionError` (uncaught Python exception, not part of the Scheme
error taxonomy): in the variadic fold, in the unary-reciprocal case, and in
the evaluation of `(/ 1 0)` in a fresh frame. -/
theorem div_by_zero_host_error :
    (∀ n : Int, div [.int n, .int 0] = .error .zeroDivisionError) ∧
    div [.int 0] = .error .zeroDivisionError ∧
    evalTop 10 (.elist [.sym "/", .int 1, .int 0]) = .error .zeroDivisionError ∧
    isSchemeError .zeroDivisionError = false := by
  refine ⟨?_, rfl, rfl, rfl⟩
  intro n
  simp only [div, toNum, numDiv, PyNum.toQ, List.foldlM]
  rfl

/-- Reduction of an `Except` bind on a success value (the do-blocks of the
evaluator leave these closed redexes behind). -/
@[simp] theorem ok_bind {α β : Type} (a : α) (f : α → Except Err β) :
    (Except.ok a >>= f) = f a := rfl

/-- Reduction of an `Except` bind on an error. -/
@[simp] theorem error_bind {α β : Type} (e : Err) (f : α → Except Err β) :
    ((Except.error e : Except Err α) >>= f) = .error e := rfl

/-- Reduction of `Except.map` on a success value. -/
@[simp] theorem map_ok {α β : Type} (a : α) (f : α → β) :
    (Except.ok a : Except Err α).map f = .ok (f a) := rfl

/-- Reduction of `Except.map` on an error. -/
@[simp] theorem map_error {α β : Type} (e : Err) (f : α → β) :
    (Except.error e : Except Err α).map f = .error e := rfl

/-- Number atoms evaluate to themselves. -/
theorem evaluateF_int (fuel : Nat) (n : Int) (frame : Nat) (s : Heap) :
    evaluateF (fuel + 1) (.int n) frame s = .ok (.int n, s) := by
  simp [evaluateF]

/-- Dispatch of a compound expression headed by `and`. -/
theorem evaluateF_and (fuel : Nat) (rest : List Expr) (frame : Nat) (s : Heap) :
    evaluateF (fuel + 1) (.elist (.sym "and" :: rest)) frame s =
      evalAnd fuel rest frame s := by
  simp [evaluateF]

/-- Dispatch of a compound expression headed by `or`. -/
theorem evaluateF_or (fuel : Nat) (rest : List Expr) (frame : Nat) (s : Heap) :
    evaluateF (fuel + 1) (.elist (.sym "or" :: rest)) frame s =
      evalOr fuel rest frame s := by
  simp [evaluateF]

/-- The `and` loop returns `True` over any list of nonzero int literals. -/
theorem evalAnd_all_truthy (ks : List Int) : ∀ (fuel frame : Nat) (s : Heap),
    ks.length ≤ fuel → (∀ k ∈ ks, k ≠ 0) →
    evalAnd (fuel + 1) (ks.map Expr.int) frame s = .ok (.bool true, s) := by
  induction ks with
  | nil => intro fuel frame s _ _; simp [evalAnd]
  | cons k ks ih =>
    intro fuel frame s hlen hk
    replace hlen : ks.length + 1 ≤ fuel := by simpa using hlen
    obtain ⟨f, rfl⟩ : ∃ f, fuel = f + 1 := ⟨fuel - 1, by omega⟩
    simp only [List.map_cons, evalAnd, evaluateF_int, ok_bind]
    have hkne : pyTruthy (.int k) = true := by
      simp only [pyTruthy]
      simpa using hk k (List.mem_cons_self k ks)
    simp only [hkne, not_true, Bool.not_true, Bool.false_eq_true, if_false, ite_false]
    simpa using ih f frame s (by omega)
      (fun a ha => hk a (List.mem_cons_of_mem _ ha))

/-- The `or` loop returns `False` over any list of zero int literals. -/
theorem evalOr_all_falsy (ks : List Int) : ∀ (fuel frame : Nat) (s : Heap),
    ks.length ≤ fuel → (∀ k ∈ ks, k = 0) →
    evalOr (fuel + 1) (ks.map Expr.int) frame s = .ok (.bool false, s) := by
  induction ks with
  | nil => intro fuel frame s _ _; simp [evalOr]
  | cons k ks ih =>
    intro fuel frame s hlen hk
    replace hlen : ks.length + 1 ≤ fuel := by simpa using hlen
    obtain ⟨f, rfl⟩ : ∃ f, fuel = f + 1 := ⟨fuel - 1, by omega⟩
    simp only [List.map_cons, evalOr, evaluateF_int, ok_bind]
    have hkz : pyTruthy (.int k) = false := by
      simp only [pyTruthy]
      simpa using hk k (List.mem_cons_self k ks)
    simp only [hkz, Bool.false_eq_true, if_false, ite_false]
    simpa using ih f frame s (by omega)
      (fun a ha => hk a (List.mem_cons_of_mem _ ha))

/-- C5: `and` returns `False` the instant an operand is falsy without
evaluating any later operand — the second operand `E` is universally
quantified, so even an operand whose evaluation would raise an error (for
example an undefined symbol) is never touched, and the heap is returned
unchanged; symmetrically `or` returns `True` at the first truthy operand.
The last two conjuncts give the no-falsy-operand (`and` is `True`) and
no-truthy-operand (`or` is `False`) cases over arbitrary int literals. -/
theorem and_or_short_circuit :
    (∀ (E : Expr) (fuel frame : Nat) (s : Heap),
      evaluateF (fuel + 3) (.elist [.sym "and", .int 0, E]) frame s = .ok (.bool false, s)) ∧
    (∀ (E : Expr) (fuel frame : Nat) (s : Heap),
      evaluateF (fuel + 3) (.elist [.sym "or", .int 1, E]) frame s = .ok (.bool true, s)) ∧
    (∀ (ks : List Int) (fuel frame : Nat) (s : Heap),
      ks.length ≤ fuel → (∀ k ∈ ks, k ≠ 0) →
      evaluateF (fuel + 2) (.elist (.sym "and" :: ks.map .int)) frame s =
        .ok (.bool true, s)) ∧
    (∀ (ks : List Int) (fuel frame : Nat) (s : Heap),
      ks.length ≤ fuel → (∀ k ∈ ks, k = 0) →
      evaluateF (fuel + 2) (.elist (.sym "or" :: ks.map .int)) frame s =
        .ok (.bool false, s)) := by
  refine ⟨?_, ?_, ?_, ?_⟩
  · intro E fuel frame s
    rw [show fuel + 3 = (fuel + 2) + 1 from rfl, evaluateF_and]
    rw [show fuel + 2 = (fuel + 1) + 1 from rfl]
    simp [evalAnd, evaluateF_int, pyTruthy, ok_bind]
  · intro E fuel frame s
    rw [show fuel + 3 = (fuel + 2) + 1 from rfl, evaluateF_or]
    rw [show fuel + 2 = (fuel + 1) + 1 from rfl]
    simp [evalOr, evaluateF_int, pyTruthy, ok_bind]
  · intro ks fuel frame s hlen hk
    rw [show fuel + 2 = (fuel + 1) + 1 from rfl, evaluateF_and]
    exact evalAnd_all_truthy ks fuel frame s hlen hk
  · intro ks fuel frame s hlen hk
    rw [show fuel + 2 = (fuel + 1) + 1 from rfl, evaluateF_or]
    exact evalOr_all_falsy ks fuel frame s hlen hk

/-- C5, witness: `(and 0 x)` with undefined `x` is `False` without error,
`(or 1 x)` is `True`, `(and 1 2)` is `True`, `(or 0 0)` is `False`. -/
theorem and_or_short_circuit_witness :
    evaluateF 13 (.elist [.sym "and", .int 0, .sym "x"]) 0 initHeap =
      .ok (.bool false, initHeap) ∧
    evaluateF 13 (.elist [.sym "or", .int 1, .sym "x"]) 0 initHeap =
      .ok (.bool true, initHeap) ∧
    evaluateF 12 (.elist (.sym "and" :: ([1, 2] : List Int).map .int)) 0 initHeap =
      .ok (.bool true, initHeap) ∧
    evaluateF 12 (.elist (.sym "or" :: ([0, 0] : List Int).map .int)) 0 initHeap =
      .ok (.bool false, initHeap) :=
  ⟨and_or_short_circuit.1 (.sym "x") 10 0 initHeap,
   and_or_short_circuit.2.1 (.sym "x") 10 0 initHeap,
   and_or_short_circuit.2.2.1 [1, 2] 10 0 initHeap (by decide) (by decide),
   and_or_short_circuit.2.2.2 [0, 0] 10 0 initHeap (by decide) (by decide)⟩

/-! ### Python equality as a quotient key

`pyEq` is an equivalence relation; the cleanest proof maps every value to a
canonical key (numbers and booleans collapse to their rational value) and
shows `pyEq v w = true ↔ eqKey v = eqKey w`. -/

inductive EqKey where
  | num (q : ℚ)
  | none
  | pair (a b : EqKey)
  | closure (p b : Expr) (f : Nat)
  | builtin (b : BuiltinName)
deriving DecidableEq

def eqKey : Value → EqKey
  | .int n => .num ((n : ℚ))
  | .float q => .num q
  | .bool b => .num (((if b then 1 else 0 : Int) : ℚ))
  | .none => .none
  | .pair a d => .pair (eqKey a) (eqKey d)
  | .closure p b f => .closure p b f
  | .builtin b => .builtin b

theorem pyEq_iff_eqKey : ∀ v w : Value, pyEq v w = true ↔ eqKey v = eqKey w := by
  intro v
  induction v with
  | int n => intro w; cases w <;> simp [pyEq, eqKey, toNum, PyNum.toQ]
  | float q => intro w; cases w <;> simp [pyEq, eqKey, toNum, PyNum.toQ]
  | bool b => intro w; cases w <;> simp [pyEq, eqKey, toNum, PyNum.toQ]
  | none => intro w; cases w <;> simp [pyEq, eqKey, toNum, PyNum.toQ]
  | pair a d iha ihd =>
    intro w
    cases w <;> simp [pyEq, eqKey, toNum, PyNum.toQ]
    rw [iha, ihd]
  | closure p b f =>
    intro w
    cases w <;> simp [pyEq, eqKey, toNum, PyNum.toQ, Expr.beq_iff, and_assoc]
  | builtin b => intro w; cases w <;> simp [pyEq, eqKey, toNum, PyNum.toQ]

theorem pyEq_refl (v : Value) : pyEq v v = true :=
  (pyEq_iff_eqKey v v).mpr rfl

theorem pyEq_symm {v w : Value} (h : pyEq v w = true) : pyEq w v = true :=
  (pyEq_iff_eqKey w v).mpr ((pyEq_iff_eqKey v w).mp h).symm

theorem pyEq_trans {u v w : Value} (h1 : pyEq u v = true) (h2 : pyEq v w = true) :
    pyEq u w = true :=
  (pyEq_iff_eqKey u w).mpr (((pyEq_iff_eqKey u v).mp h1).trans ((pyEq_iff_eqKey v w).mp h2))

/-! ### The `set(args)` construction behind `equal` -/

/-- Folding insertions only ever appends. -/
theorem foldl_pySetInsert_prefix :
    ∀ (args : List Value) (acc : List Value),
      ∃ extra, args.foldl pySetInsert acc = acc ++ extra := by
  intro args
  induction args with
  | nil => intro acc; exact ⟨[], by simp⟩
  | cons a as ih =>
    intro acc
    simp only [List.foldl_cons]
    by_cases h : acc.any (fun w => pyEq w a) = true
    · rw [show pySetInsert acc a = acc from by simp [pySetInsert, h]]
      exact ih acc
    · rw [show pySetInsert acc a = acc ++ [a] from by simp [pySetInsert, h]]
      obtain ⟨extra, hx⟩ := ih (acc ++ [a])
      exact ⟨[a] ++ extra, by simp [hx]⟩

/-- When every later element is `==` to `v`, the set stays `{v}`. -/
theorem foldl_pySetInsert_single (v : Value) :
    ∀ (args : List Value), (∀ a ∈ args, pyEq v a = true) →
      args.foldl pySetInsert [v] = [v] := by
  intro args
  induction args with
  | nil => intro _; rfl
  | cons a as ih =>
    intro h
    have ha : pyEq v a = true := h a (List.mem_cons_self a as)
    simp only [List.foldl_cons]
    rw [show pySetInsert [v] a = [v] by simp [pySetInsert, ha]]
    exact ih (fun b hb => h b (List.mem_cons_of_mem _ hb))

/-- When the fold does not grow the set, every element was `==` to one
already present. -/
theorem foldl_pySetInsert_stable :
    ∀ (args : List Value) (acc : List Value),
      (args.foldl pySetInsert acc).length ≤ acc.length →
      ∀ a ∈ args, acc.any (fun w => pyEq w a) = true := by
  intro args
  induction args with
  | nil => intro acc _ a ha; cases ha
  | cons a as ih =>
    intro acc hlen b hb
    simp only [List.foldl_cons] at hlen
    by_cases h : acc.any (fun w => pyEq w a) = true
    · rw [show pySetInsert acc a = acc by simp [pySetInsert, h]] at hlen
      rcases List.mem_cons.mp hb with rfl | hb'
      · exact h
      · exact ih acc hlen b hb'
    · exfalso
      rw [show pySetInsert acc a = acc ++ [a] by simp [pySetInsert, h]] at hlen
      obtain ⟨extra, hx⟩ := foldl_pySetInsert_prefix as (acc ++ [a])
      rw [hx] at hlen
      simp only [List.length_append, List.length_cons, List.length_nil] at hlen
      omega

/-- C8, counterexample: with zero arguments `equal` returns `False`
(`len(set([])) == 1` is `0 == 1`), although the empty argument sequence is
vacuously pairwise-equal — so "true iff all arguments are pairwise equal"
fails at the empty sequence. -/
theorem equal_empty_counterexample :
    equal [] = .ok (.bool false) ∧
    List.Pairwise (fun a b => pyEq a b = true) ([] : List Value) :=
  ⟨rfl, List.Pairwise.nil⟩

/-- C8, amended: over argument sequences of numbers, booleans, `nil` and
builtin procedures — the values on which Python `==` is a function of the
value itself — `equal?` returns `True` exactly when the sequence is
nonempty and all arguments are pairwise equal (single-element sequences
give `True`; the empty sequence gives `False`).  `Pair` and `Functions`
arguments are outside this statement: the host compares them by object
identity, which the value model does not carry. -/
theorem equal_true_iff_nonempty_pairwise (args : List Value)
    (_hatoms : ∀ v ∈ args, idFree v = true) :
    equal args = .ok (.bool true) ↔
      args ≠ [] ∧ args.Pairwise (fun a b => pyEq a b = true) := by
  have hlen : equal args = .ok (.bool true) ↔ (pySet args).length = 1 := by
    unfold equal
    constructor
    · intro h
      have : ((pySet args).length == 1) = true := by
        injection h with h'
        injection h'
      simpa using this
    · intro h
      simp [h]
  rw [hlen]
  cases args with
  | nil =>
    simp [pySet]
  | cons v rest =>
    have hstart : pySet (v :: rest) = rest.foldl pySetInsert [v] := by
      simp [pySet, pySetInsert]
    rw [hstart]
    constructor
    · intro h1
      refine ⟨by simp, ?_⟩
      have hall : ∀ a ∈ rest, pyEq v a = true := by
        intro a ha
        have := foldl_pySetInsert_stable rest [v] (by simp [h1]) a ha
        simpa using this
      rw [List.pairwise_cons]
      refine ⟨hall, ?_⟩
      refine List.pairwise_of_forall_mem_list ?_
      intro a ha b hb
      exact pyEq_trans (pyEq_symm (hall a ha)) (hall b hb)
    · rintro ⟨-, hpw⟩
      rw [List.pairwise_cons] at hpw
      rw [foldl_pySetInsert_single v rest hpw.1]
      rfl

/-- C8, witness: `equal?` on `[1, True, 1.0]` (all numerically equal in
Python) is `True`; on `[1, 2]` the pairwise condition fails and it is
`False`. -/
theorem equal_true_iff_nonempty_pairwise_witness :
    equal [Value.int 1, Value.bool true] = .ok (.bool true) ∧
    ¬ (equal [Value.int 1, Value.int 2] = .ok (.bool true)) :=
  ⟨(equal_true_iff_nonempty_pairwise [Value.int 1, Value.bool true] (by decide)).mpr
      (by refine ⟨by simp, ?_⟩; decide),
   fun h => by
    have := (equal_true_iff_nonempty_pairwise [Value.int 1, Value.int 2] (by decide)).mp h
    exact absurd this.2 (by decide)⟩

/-! ### `list-ref` -/

theorem check_list_list_func (l : List Value) : check_list (list_func l) = true := by
  induction l with
  | nil => rfl
  | cons a rest ih => simpa [list_func, check_list] using ih

theorem chainLen_list_func (l : List Value) : chainLen (list_func l) = l.length := by
  induction l with
  | nil => rfl
  | cons a rest ih => simpa [list_func, chainLen] using ih

theorem walkCdr_list_func :
    ∀ (k : Nat) (l : List Value), k ≤ l.length →
      walkCdr k (list_func l) = .ok (list_func (l.drop k)) := by
  intro k
  induction k with
  | zero => intro l _; simp [walkCdr]
  | succ k ih =>
    intro l hk
    cases l with
    | nil => simp at hk
    | cons a rest =>
      simpa [list_func, walkCdr] using ih rest (by simpa using hk)

/-- C7, counterexample: on the proper list `(1)` the out-of-range index
`-1` does not raise `SchemeEvaluationError` — the negative index passes the
`index >= len_list` check, `range(-1)` walks zero links, and the `car` of
the list, `1`, is returned. -/
theorem list_ref_counterexample :
    list_index [list_func [.int 1], .int (-1)] = .ok (.int 1) ∧
    list_index [list_func [.int 1], .int (-1)] ≠ .error .schemeEvalError := by
  have base : list_index [list_func [.int 1], .int (-1)] = .ok (.int 1) := rfl
  exact ⟨base, fun h => Except.noConfusion (base.symm.trans h)⟩

/-- C7, amended, full characterisation of `list-ref` on an int index `i`:
on a proper list, an in-range `i` walks `i` rest-links and returns the
element's first field, `i ≥ length` raises `SchemeEvaluationError`, while a
negative `i` returns the first element of a nonempty list and raises a host
`AttributeError` (`None.car`) on the empty list; on a bare pair that is not
a proper list, index `0` returns the first field and every other index
raises `SchemeEvaluationError`. -/
theorem list_ref_characterisation :
    (∀ (l : List Value) (i : Nat) (v : Value), l[i]? = some v →
      list_index [list_func l, .int (i : Int)] = .ok v) ∧
    (∀ (l : List Value) (i : Int), (l.length : Int) ≤ i →
      list_index [list_func l, .int i] = .error .schemeEvalError) ∧
    (∀ (v : Value) (rest : List Value) (i : Int), i < 0 →
      list_index [list_func (v :: rest), .int i] = .ok v) ∧
    (∀ i : Int, i < 0 →
      list_index [list_func [], .int i] = .error .attributeError) ∧
    (∀ (a d : Value) (i : Int), check_list d = false →
      (list_index [.pair a d, .int 0] = .ok a ∧
       (i ≠ 0 → list_index [.pair a d, .int i] = .error .schemeEvalError))) := by
  refine ⟨?_, ?_, ?_, ?_, ?_⟩
  · intro l i v hv
    obtain ⟨hlt, hget⟩ := List.getElem?_eq_some_iff.mp hv
    have hc : ¬ ((l.length : ℚ) ≤ (((i : Int) : ℚ))) := by
      push_cast
      exact not_le.mpr (by exact_mod_cast hlt)
    have hdrop : l.drop i = v :: l.drop (i + 1) := by
      rw [List.drop_eq_getElem_cons hlt]
      simp [← hget]
    simp only [list_index, pyGetV, List.getElem?_cons_zero, List.getElem?_cons_succ, ok_bind,
      check_list_list_func, len_list, chainLen_list_func, toNum, PyNum.toQ,
      Bool.true_eq_false, not_true, false_and, if_false, ite_false, if_neg hc]
    rw [Int.toNat_natCast, walkCdr_list_func i l (le_of_lt hlt)]
    simp [hdrop, list_func, carOf]
  · intro l i hle
    have hc : ((l.length : ℚ) ≤ ((i : ℚ))) := by exact_mod_cast hle
    simp [list_index, pyGetV, check_list_list_func, len_list, chainLen_list_func,
      toNum, PyNum.toQ, hc]
  · intro v rest i hneg
    have hc : ¬ ((((v :: rest).length : ℚ)) ≤ ((i : ℚ))) := by
      intro h
      have : (0 : ℚ) ≤ (i : ℚ) := le_trans (by positivity) h
      exact absurd (by exact_mod_cast this) (not_le.mpr hneg)
    have htn : i.toNat = 0 := Int.toNat_of_nonpos (le_of_lt hneg)
    simp only [list_index, pyGetV, List.getElem?_cons_zero, List.getElem?_cons_succ, ok_bind,
      check_list_list_func, len_list, chainLen_list_func, toNum, PyNum.toQ,
      Bool.true_eq_false, not_true, false_and, if_false, ite_false, if_neg hc]
    rw [htn]
    simp [walkCdr, list_func, carOf]
  · intro i hneg
    have hc : ¬ (((0 : Nat) : ℚ) ≤ ((i : ℚ))) := by
      intro h
      exact absurd (by exact_mod_cast h : (0 : Int) ≤ i) (not_le.mpr hneg)
    have htn : i.toNat = 0 := Int.toNat_of_nonpos (le_of_lt hneg)
    simp only [list_index, pyGetV, List.getElem?_cons_zero, List.getElem?_cons_succ, ok_bind,
      check_list_list_func, len_list, chainLen_list_func, toNum, PyNum.toQ,
      Bool.true_eq_false, not_true, false_and, if_false, ite_false, List.length_nil,
      if_neg hc]
    rw [htn]
    simp [walkCdr, list_func, carOf]
  · intro a d i hd
    have hcl : check_list (Value.pair a d) = false := by simpa [check_list] using hd
    constructor
    · simp [list_index, pyGetV, hcl, Value.isPair, pyEq, toNum, PyNum.toQ, carOf]
    · intro hi
      have hne : pyEq (.int i) (.int 0) = false := by
        simp [pyEq, toNum, PyNum.toQ]
        exact_mod_cast hi
      simp [list_index, pyGetV, hcl, Value.isPair, hne]

/-- C7, witness: in-range, past-the-end, negative-on-nonempty,
negative-on-empty, and both bare-pair cases at concrete inputs. -/
theorem list_ref_characterisation_witness :
    list_index [list_func [.int 10, .int 20], .int ((1 : Nat) : Int)] = .ok (.int 20) ∧
    list_index [list_func [.int 10], .int 3] = .error .schemeEvalError ∧
    list_index [list_func [.int 10, .int 20], .int (-2)] = .ok (.int 10) ∧
    list_index [list_func [], .int (-1)] = .error .attributeError ∧
    list_index [.pair (.int 1) (.int 2), .int 0] = .ok (.int 1) ∧
    list_index [.pair (.int 1) (.int 2), .int 5] = .error .schemeEvalError :=
  ⟨list_ref_characterisation.1 [.int 10, .int 20] 1 (.int 20) rfl,
   list_ref_characterisation.2.1 [.int 10] 3 (by decide),
   list_ref_characterisation.2.2.1 (.int 10) [.int 20] (-2) (by decide),
   list_ref_characterisation.2.2.2.1 (-1) (by decide),
   (list_ref_characterisation.2.2.2.2 (.int 1) (.int 2) 5 rfl).1,
   (list_ref_characterisation.2.2.2.2 (.int 1) (.int 2) 5 rfl).2 (by decide)⟩

/-! ### `set!` and the frame chain -/

/-- Spec-side notion ("the nearest enclosing frame that already binds it"):
the first frame along the parent chain of `fid` whose bindings contain the
key, `none` when the search reaches the root builtin table without
success.  The fuel mirrors the one of `setParent` (`fid + 1` steps reach
the root on any heap whose parents point to earlier frames). -/
def chainBindsF : Nat → Heap → Nat → Expr → Option Nat
  | 0, _, _, _ => Option.none
  | fuel + 1, s, fid, k =>
    match s[fid]? with
    | Option.none => Option.none
    | some fr =>
      if dictMem fr.children k then some fid
      else
        match fr.parent with
        | some p => chainBindsF fuel s p k
        | Option.none => Option.none

def chainBinds (s : Heap) (fid : Nat) (k : Expr) : Option Nat :=
  chainBindsF (fid + 1) s fid k

/-- A frame points only to earlier-allocated frames (true of every frame
the interpreter allocates, since a child's parent exists first). -/
def frameOk (i : Nat) (fr : FrameData) : Bool :=
  match fr.parent with
  | some p => p < i
  | Option.none => true

def wfHeap (s : Heap) : Bool :=
  (List.range s.length).all fun i =>
    match s[i]? with
    | some fr => frameOk i fr
    | Option.none => true

theorem wfHeap_parent {s : Heap} (hwf : wfHeap s = true) {i : Nat} {fr : FrameData}
    (hget : s[i]? = some fr) {p : Nat} (hp : fr.parent = some p) : p < i := by
  have hi : i < s.length := by
    rcases List.getElem?_eq_some_iff.mp hget with ⟨h, -⟩
    exact h
  have h := List.all_eq_true.mp hwf i (List.mem_range.mpr hi)
  rw [hget] at h
  simpa [frameOk, hp] using h

/-- `set_parent` against the spec-side search, at every fuel level: when
the chain binds the key, the nearest binding frame is the one mutated (and
only it, in place); when it does not, the mutation fails (with
`SchemeNameError`, or the out-of-fuel marker). -/
theorem setParentF_vs_chainBindsF :
    ∀ (fuel : Nat) (s : Heap) (fid : Nat) (k : Expr) (v : Value),
      hashableKey k = true →
      (∀ g, chainBindsF fuel s fid k = some g →
        ∀ fr, s[g]? = some fr →
          setParentF fuel s fid k v =
            .ok (s.set g { fr with children := dictInsert fr.children k v })) ∧
      (chainBindsF fuel s fid k = Option.none →
        setParentF fuel s fid k v = .error .schemeNameError ∨
        setParentF fuel s fid k v = .error .stuck) := by
  intro fuel
  induction fuel with
  | zero =>
    intro s fid k v _
    exact ⟨(fun g hg => nomatch hg), fun _ => Or.inr rfl⟩
  | succ f ih =>
    intro s fid k v hk
    constructor
    · intro g hg fr hfr
      cases hsf : s[fid]? with
      | none => simp [chainBindsF, hsf] at hg
      | some fr0 =>
        simp only [chainBindsF, hsf] at hg
        by_cases hmem : dictMem fr0.children k = true
        · rw [if_pos hmem] at hg
          injection hg with hg
          subst hg
          have hfr0 : fr = fr0 := by
            rw [hsf] at hfr
            exact (Option.some.inj hfr).symm
          subst hfr0
          simp [setParentF, hk, hsf, hmem]
        · rw [if_neg hmem] at hg
          cases hpar : fr0.parent with
          | none => rw [hpar] at hg; cases hg
          | some p =>
            rw [hpar] at hg
            have hrec := (ih s p k v hk).1 g hg fr hfr
            simp [setParentF, hk, hsf, hmem, hpar, hrec]
    · intro hg
      cases hsf : s[fid]? with
      | none => simp [setParentF, hk, hsf]
      | some fr0 =>
        simp only [chainBindsF, hsf] at hg
        by_cases hmem : dictMem fr0.children k = true
        · rw [if_pos hmem] at hg; cases hg
        · rw [if_neg hmem] at hg
          cases hpar : fr0.parent with
          | none => simp [setParentF, hk, hsf, hmem, hpar]
          | some p =>
            rw [hpar] at hg
            have hrec := (ih s p k v hk).2 hg
            rcases hrec with h | h <;>
              simp [setParentF, hk, hsf, hmem, hpar, h]

/-- On a well-formed heap, `set_parent` started inside the heap with
enough fuel never runs out of fuel. -/
theorem setParentF_not_stuck :
    ∀ (fuel : Nat) (s : Heap) (fid : Nat), wfHeap s = true → fid < s.length → fid < fuel →
      ∀ (k : Expr) (v : Value), hashableKey k = true →
        setParentF fuel s fid k v ≠ .error .stuck := by
  intro fuel
  induction fuel with
  | zero => intro s fid _ _ h; exact (Nat.not_lt_zero fid h).elim
  | succ f ih =>
    intro s fid hwf hlen hfu k v hk
    obtain ⟨fr, hfr⟩ : ∃ fr, s[fid]? = some fr := ⟨_, List.getElem?_eq_getElem hlen⟩
    by_cases hmem : dictMem fr.children k = true
    · simp [setParentF, hk, hfr, hmem]
    · cases hpar : fr.parent with
      | none => simp [setParentF, hk, hfr, hmem, hpar]
      | some p =>
        have hp : p < fid := wfHeap_parent hwf hfr hpar
        have hrec := ih s p hwf (lt_trans hp hlen) (by omega) k v hk
        simpa [setParentF, hk, hfr, hmem, hpar] using hrec

/-- C3: `(set! name expr)` first evaluates `expr` in the current frame
(third conjunct, the exact evaluation shape), then mutates the nearest
enclosing frame that already binds `name` in place (first conjunct, the
result heap differs from the input only at that frame's binding table);
when no frame of the chain binds `name` the evaluation fails with
`SchemeNameError` and no frame of the heap is touched — in particular a
name bound only in the root builtin table still fails, since the walk
raises before ever reaching into the root (second and fourth conjuncts:
the second holds for every key, and the fourth runs `(set! + 5)` against
the real builtin table). -/
theorem set_bang_semantics :
    (∀ (s : Heap) (fid : Nat) (k : Expr) (v : Value) (g : Nat) (fr : FrameData),
      hashableKey k = true → chainBinds s fid k = some g → s[g]? = some fr →
      setParent s fid k v = .ok (s.set g { fr with children := dictInsert fr.children k v })) ∧
    (∀ (s : Heap) (fid : Nat) (k : Expr) (v : Value),
      wfHeap s = true → fid < s.length → hashableKey k = true →
      chainBinds s fid k = Option.none →
      setParent s fid k v = .error .schemeNameError) ∧
    (∀ (fuel : Nat) (name e2 : Expr) (frame : Nat) (s : Heap),
      evaluateF (fuel + 1) (.elist [.sym "set!", name, e2]) frame s =
        match evaluateF fuel e2 frame s with
        | .ok (v, s1) => (setParent s1 frame name v).map (fun s2 => (v, s2))
        | .error e => .error e) ∧
    evalTop 10 (.elist [.sym "set!", .sym "+", .int 5]) = .error .schemeNameError := by
  refine ⟨?_, ?_, ?_, rfl⟩
  · intro s fid k v g fr hk hg hfr
    exact (setParentF_vs_chainBindsF (fid + 1) s fid k v hk).1 g hg fr hfr
  · intro s fid k v hwf hlen hk hg
    rcases (setParentF_vs_chainBindsF (fid + 1) s fid k v hk).2 hg with h | h
    · exact h
    · exact absurd h (setParentF_not_stuck (fid + 1) s fid hwf hlen (by omega) k v hk)
  · intro fuel name e2 frame s
    simp only [evaluateF]
    rw [if_neg (by simp), if_neg (by simp), if_neg (by simp), if_neg (by simp),
      if_neg (by simp), if_neg (by simp), if_neg (by simp), if_neg (by simp)]
    rw [if_pos trivial]
    simp only [pyGet, List.getElem?_cons_zero, List.getElem?_cons_succ, ok_bind]
    cases h : evaluateF fuel e2 frame s with
    | error e => rfl
    | ok p =>
      rcases p with ⟨v, s1⟩
      simp only [ok_bind]
      cases hsp : setParent s1 frame name v with
      | error e => simp [hsp]
      | ok s2 => simp [hsp]

/-- C3, witness: mutating `x` from a child frame updates the root-ward
frame that binds it and nothing else; `(set! + 5)` on a fresh frame fails
with `SchemeNameError` even though `+` is bound in the builtin table. -/
theorem set_bang_semantics_witness :
    setParent [⟨Option.none, [(Expr.sym "x", Value.int 1)]⟩, ⟨some 0, []⟩] 1
        (.sym "x") (.int 5) =
      .ok (([⟨Option.none, [(Expr.sym "x", Value.int 1)]⟩, ⟨some 0, []⟩] : Heap).set 0
        { parent := Option.none,
          children := dictInsert [(Expr.sym "x", Value.int 1)] (.sym "x") (.int 5) }) ∧
    setParent [⟨Option.none, []⟩] 0 (.sym "+") (.int 5) = .error .schemeNameError :=
  ⟨set_bang_semantics.1 _ 1 (.sym "x") (.int 5) 0
      ⟨Option.none, [(Expr.sym "x", Value.int 1)]⟩ rfl rfl rfl,
   set_bang_semantics.2.1 _ 0 (.sym "+") (.int 5) rfl (by decide) rfl rfl⟩

/-! ### Closure invocation and `let` -/

/-- C1: invoking a closure evaluates its body in a freshly allocated frame
(index `s.length`) whose parent is the closure's captured frame `cf` with
the parameters bound to the arguments — the caller's frame is not even an
input of `Functions.__call__`, so the new frame can never chain to it.  The
second conjunct runs the shadowing scenario end to end: the closure
`(lambda (y) x)` is created inside a frame A where `x` is `7` and invoked
from an unrelated frame B whose own binding `x = 100` shadows the name;
the free `x` resolves against A's chain and the program returns `7`, not
`100`. -/
theorem closure_invocation_lexical :
    (∀ (fuel : Nat) (param body : Expr) (cf : Nat) (args : List Value) (s : Heap)
       (ps : List Expr) (cs : List (Expr × Value)),
      paramList param = .ok ps → args.length = ps.length → mkChildren ps args = .ok cs →
      applyF (fuel + 1) (.closure param body cf) args s =
        evaluateF fuel body s.length (s ++ [⟨some cf, cs⟩])) ∧
    (evalTop 50 (.elist [
      .elist [.sym "lambda", .elist [.sym "g"],
        .elist [.elist [.sym "lambda", .elist [.sym "x"], .elist [.sym "g", .int 0]],
          .int 100]],
      .elist [.elist [.sym "lambda", .elist [.sym "x"],
        .elist [.sym "lambda", .elist [.sym "y"], .sym "x"]], .int 7]])).map Prod.fst
      = .ok (.int 7) := by
  constructor
  · intro fuel param body cf args s ps cs hps hlen hcs
    simp only [applyF, hps, ok_bind]
    rw [if_neg (fun h => h hlen)]
    simp [hcs]
  · rfl

/-- C1, witness: applying a one-parameter closure captured over the root
frame evaluates its body in a fresh frame parented to that captured
frame. -/
theorem closure_invocation_lexical_witness :
    applyF 10 (.closure (.elist [.sym "a"]) (.sym "a") 0) [.int 5] initHeap =
      evaluateF 9 (.sym "a") 1 (initHeap ++ [⟨some 0, [(Expr.sym "a", Value.int 5)]⟩]) :=
  closure_invocation_lexical.1 9 (.elist [.sym "a"]) (.sym "a") 0 [.int 5] initHeap
    [.sym "a"] [(Expr.sym "a", Value.int 5)] rfl rfl rfl

/-- C4: `(let bindings body)` allocates exactly one new frame, at the end
of the heap with the current frame as parent, evaluates the binding
initialisers in that new frame in listed order (third conjunct, the exact
evaluation shape through `evalBindings`, which binds each name immediately
after evaluating its initialiser), and evaluates the body there; hence a
later initialiser sees the earlier bindings of the same `let`:
`(let ((x a) (y (+ x b))) y)` evaluates to `a + b` for all ints `a`, `b`
(second conjunct), and in particular `(let ((x 2) (y (+ x 1))) y)` is `3`
(first conjunct). -/
theorem let_sequential_binding :
    ((evalTop 20 (.elist [.sym "let",
        .elist [.elist [.sym "x", .int 2],
          .elist [.sym "y", .elist [.sym "+", .sym "x", .int 1]]],
        .sym "y"])).map Prod.fst = .ok (.int 3)) ∧
    (∀ a b : Int, (evalTop 20 (.elist [.sym "let",
        .elist [.elist [.sym "x", .int a],
          .elist [.sym "y", .elist [.sym "+", .sym "x", .int b]]],
        .sym "y"])).map Prod.fst = .ok (.int (a + b))) ∧
    (∀ (fuel : Nat) (t1 t2 : Expr) (frame : Nat) (s : Heap) (bs : List Expr),
      iterExprs t1 = .ok bs →
      evaluateF (fuel + 1) (.elist [.sym "let", t1, t2]) frame s =
        match evalBindings fuel bs s.length (s ++ [⟨some frame, []⟩]) with
        | .ok s2 => evaluateF fuel t2 s.length s2
        | .error e => .error e) := by
  refine ⟨rfl, ?_, ?_⟩
  · intro a b
    have h : (evalTop 20 (.elist [.sym "let",
        .elist [.elist [.sym "x", .int a],
          .elist [.sym "y", .elist [.sym "+", .sym "x", .int b]]],
        .sym "y"])).map Prod.fst = Except.ok (Value.int (0 + a + b)) := rfl
    rw [h]
    simp
  · intro fuel t1 t2 frame s bs hbs
    simp only [evaluateF]
    rw [if_neg (by simp), if_neg (by simp), if_neg (by simp), if_neg (by simp),
      if_neg (by simp), if_neg (by simp), if_neg (by simp)]
    rw [if_pos trivial]
    simp only [pyGet, List.getElem?_cons_zero, List.getElem?_cons_succ, ok_bind, hbs]
    cases h : evalBindings fuel bs s.length (s ++ [⟨some frame, []⟩]) with
    | error e => simp [h]
    | ok s2 => simp [h]

/-- C4, witness: the `let` shape applied to an empty binding list and the
body `0`. -/
theorem let_sequential_binding_witness :
    evaluateF 6 (.elist [.sym "let", .elist [], .int 0]) 0 initHeap =
      match evalBindings 5 [] initHeap.length (initHeap ++ [⟨some 0, []⟩]) with
      | .ok s2 => evaluateF 5 (.int 0) initHeap.length s2
      | .error e => .error e :=
  let_sequential_binding.2.2 5 (.elist []) (.int 0) 0 initHeap [] rfl

/-! ### The two front ends -/

/-- The parser workers of `lisp_1.py` and `lisp_2.py` agree at every fuel
level, index and accumulator. -/
theorem parse_workers_eq : ∀ (fuel : Nat) (ts : List String),
    (∀ i, Lisp1.parseE ts fuel i = Lisp2.parseE ts fuel i) ∧
    (∀ i acc, Lisp1.parseLoop ts fuel i acc = Lisp2.parseLoop ts fuel i acc) := by
  intro fuel
  induction fuel with
  | zero => exact fun ts => ⟨fun _ => rfl, fun _ _ => rfl⟩
  | succ f ih =>
    intro ts
    have hnos : Lisp1.number_or_symbol = Lisp2.number_or_symbol := rfl
    constructor
    · intro i
      cases h : ts[i]? with
      | none => simp only [Lisp1.parseE, Lisp2.parseE, hnos, h]
      | some tok =>
        simp only [Lisp1.parseE, Lisp2.parseE, hnos, h]
        cases hn : Lisp2.number_or_symbol tok with
        | int n => rfl
        | float q => rfl
        | sym s' =>
          by_cases h1 : tok = "("
          · by_cases h2 : i + 1 ≥ ts.length
            · simp [h1, h2]
            · simp [h1, h2, (ih ts).2]
          · by_cases h2 : tok = ")"
            · simp [h1, h2]
            · simp [h1, h2]
        | elist es =>
          by_cases h1 : tok = "("
          · by_cases h2 : i + 1 ≥ ts.length
            · simp [h1, h2]
            · simp [h1, h2, (ih ts).2]
          · by_cases h2 : tok = ")"
            · simp [h1, h2]
            · simp [h1, h2]
    · intro i acc
      cases h : ts[i]? with
      | none => simp only [Lisp1.parseLoop, Lisp2.parseLoop, h]
      | some tok =>
        simp only [Lisp1.parseLoop, Lisp2.parseLoop, h]
        by_cases h1 : tok = ")"
        · simp [h1]
        · rw [(ih ts).1 i]
          cases hp : Lisp2.parseE ts f i with
          | error e => simp [h1, hp]
          | ok p =>
            rcases p with ⟨e, upcoming⟩
            by_cases h2 : upcoming ≥ ts.length
            · simp [h1, hp, h2]
            · simp [h1, hp, h2, (ih ts).2]

/-! ### Well-formed token lists

`Enc ts e` holds when the token list `ts` is exactly one well-formed
encoding of the expression `e`: a single non-parenthesis token encodes the
atom `number_or_symbol t`, and `( seg1 … segN )` encodes a compound
expression whose sub-segments encode its members in order. -/
inductive Enc : List String → Expr → Prop where
  | atom (t : String) : t ≠ "(" → t ≠ ")" → Enc [t] (number_or_symbol t)
  | compound (segs : List (List String)) (es : List Expr) :
      segs.length = es.length →
      (∀ p ∈ segs.zip es, Enc p.1 p.2) →
      Enc ("(" :: segs.flatten ++ [")"]) (.elist es)

theorem number_or_symbol_lparen : number_or_symbol "(" = .sym "(" := rfl

theorem number_or_symbol_rparen : number_or_symbol ")" = .sym ")" := rfl

theorem number_or_symbol_sym {t s' : String} (h : number_or_symbol t = .sym s') :
    s' = t := by
  unfold number_or_symbol at h
  cases hi : parseIntStr t with
  | some n => rw [hi] at h; cases h
  | none =>
    rw [hi] at h
    cases hf : parseFloatStr t with
    | some q => rw [hf] at h; cases h
    | none =>
      rw [hf] at h
      injection h with h
      exact h.symm

theorem number_or_symbol_ne_elist (t : String) (es : List Expr) :
    number_or_symbol t ≠ .elist es := by
  unfold number_or_symbol
  cases hi : parseIntStr t with
  | some n => simp
  | none =>
    cases hf : parseFloatStr t with
    | some q => simp
    | none => simp

theorem number_or_symbol_int_ne_paren {t : String} {n : Int}
    (h : number_or_symbol t = .int n) : t ≠ "(" ∧ t ≠ ")" := by
  constructor
  · rintro rfl; rw [number_or_symbol_lparen] at h; cases h
  · rintro rfl; rw [number_or_symbol_rparen] at h; cases h

theorem number_or_symbol_float_ne_paren {t : String} {q : ℚ}
    (h : number_or_symbol t = .float q) : t ≠ "(" ∧ t ≠ ")" := by
  constructor
  · rintro rfl; rw [number_or_symbol_lparen] at h; cases h
  · rintro rfl; rw [number_or_symbol_rparen] at h; cases h

/-- An encoding segment is never empty, and never starts with `)`. -/
theorem Enc.head_shape {ts : List String} {e : Expr} (h : Enc ts e) :
    ∃ t rest, ts = t :: rest ∧ t ≠ ")" := by
  cases h with
  | atom t h1 h2 => exact ⟨t, [], rfl, h2⟩
  | compound segs es hlen hencs => exact ⟨"(", segs.flatten ++ [")"], rfl, by decide⟩

/-- The token segment from index `i` (inclusive) to `j` (exclusive). -/
def seg (ts : List String) (i j : Nat) : List String :=
  (ts.drop i).take (j - i)

theorem seg_self (ts : List String) (i : Nat) : seg ts i i = [] := by
  simp [seg]

theorem seg_cons {ts : List String} {i j : Nat} (hi : i < ts.length) (hij : i < j) :
    seg ts i j = ts[i] :: seg ts (i + 1) j := by
  unfold seg
  rw [List.drop_eq_getElem_cons hi]
  obtain ⟨d, hd⟩ : ∃ d, j - i = d + 1 := ⟨j - i - 1, by omega⟩
  rw [hd, List.take_succ_cons, show j - (i + 1) = d by omega]

theorem seg_append {ts : List String} {i k j : Nat} (h1 : i ≤ k) (h2 : k ≤ j) :
    seg ts i k ++ seg ts k j = seg ts i j := by
  unfold seg
  rw [show j - i = (k - i) + (j - k) by omega, List.take_add]
  congr 1
  rw [List.drop_drop]
  congr 2
  omega

theorem seg_snoc {ts : List String} {i j : Nat} (h1 : i ≤ j) (h2 : j < ts.length) :
    seg ts i (j + 1) = seg ts i j ++ [ts[j]] := by
  unfold seg
  rw [show j + 1 - i = (j - i) + 1 by omega, List.take_succ]
  congr 1
  rw [List.getElem?_drop]
  rw [show i + (j - i) = j by omega]
  simp [List.getElem?_eq_getElem h2]

theorem seg_full (ts : List String) : seg ts 0 ts.length = ts := by
  simp [seg]

/-- The token right after a leading prefix. -/
theorem getElem?_append_len {α : Type} (pre : List α) (x : α) (rest : List α) :
    (pre ++ x :: rest)[pre.length]? = some x := by
  rw [List.getElem?_append_right (le_refl _)]
  simp

/-- Soundness of the sub-expression loop, given pointwise soundness of the
member segments: the loop consumes the flattened member segments, stops at
the closing `)`, and returns the accumulated members. -/
theorem parseLoop_sound :
    ∀ (segs : List (List String)) (es : List Expr),
      segs.length = es.length →
      (∀ p ∈ segs.zip es, Enc p.1 p.2) →
      (∀ p ∈ segs.zip es, ∀ (pre post : List String) (fuel : Nat),
        2 * p.1.length ≤ fuel →
        parseE (pre ++ p.1 ++ post) fuel pre.length = .ok (p.2, pre.length + p.1.length)) →
      ∀ (pre post : List String) (acc : List Expr) (fuel : Nat),
        2 * segs.flatten.length + 1 ≤ fuel →
        parseLoop (pre ++ segs.flatten ++ ")" :: post) fuel pre.length acc =
          .ok (.elist (acc ++ es), pre.length + segs.flatten.length + 1) := by
  intro segs
  induction segs with
  | nil =>
    intro es hlen _ _ pre post acc fuel hfuel
    obtain rfl : es = [] := (List.length_eq_zero.mp hlen.symm)
    obtain ⟨f, rfl⟩ : ∃ f, fuel = f + 1 := ⟨fuel - 1, by omega⟩
    simp only [List.flatten_nil, List.append_nil, List.length_nil]
    have hget : (pre ++ ")" :: post)[pre.length]? = some ")" :=
      getElem?_append_len pre ")" post
    simp only [parseLoop, hget]
    rw [if_pos trivial]
  | cons sg segs ihsegs =>
    intro es hlen hencs hsound pre post acc fuel hfuel
    cases es with
    | nil => simp at hlen
    | cons e es' =>
      have hmem : (sg, e) ∈ (sg :: segs).zip (e :: es') := by
        rw [List.zip_cons_cons]
        exact List.mem_cons_self _ _
      obtain ⟨t, rest, rfl, ht⟩ := (hencs _ hmem).head_shape
      obtain ⟨f, rfl⟩ : ∃ f, fuel = f + 1 := ⟨fuel - 1, by omega⟩
      have hts : pre ++ ((t :: rest) :: segs).flatten ++ ")" :: post
          = pre ++ (t :: rest) ++ (segs.flatten ++ ")" :: post) := by
        simp
      rw [hts]
      have hget : (pre ++ (t :: rest) ++ (segs.flatten ++ ")" :: post))[pre.length]?
          = some t := by
        rw [List.append_assoc]
        exact getElem?_append_len pre t _
      simp only [parseLoop, hget]
      rw [if_neg ht]
      have hfE : 2 * (t :: rest).length ≤ f := by
        simp only [List.flatten_cons, List.length_append] at hfuel
        simp only [List.length_cons] at hfuel ⊢
        omega
      have hE := hsound _ hmem pre (segs.flatten ++ ")" :: post) f hfE
      dsimp only at hE
      simp only [hE]
      rw [if_neg (by simp only [List.length_append, List.length_cons, ge_iff_le, not_le]; omega)]
      have hlen' : segs.length = es'.length := by simpa using hlen
      have hencs' : ∀ p ∈ segs.zip es', Enc p.1 p.2 := fun p hp =>
        hencs p (by rw [List.zip_cons_cons]; exact List.mem_cons_of_mem _ hp)
      have hsound' : ∀ p ∈ segs.zip es', ∀ (pre post : List String) (fuel : Nat),
          2 * p.1.length ≤ fuel →
          parseE (pre ++ p.1 ++ post) fuel pre.length = .ok (p.2, pre.length + p.1.length) :=
        fun p hp => hsound p (by rw [List.zip_cons_cons]; exact List.mem_cons_of_mem _ hp)
      have hfL : 2 * segs.flatten.length + 1 ≤ f := by
        have h2 := hfuel
        simp only [List.flatten_cons, List.length_append, List.length_cons] at h2
        omega
      have hrec := ihsegs es' hlen' hencs' hsound' (pre ++ (t :: rest)) post (acc ++ [e]) f hfL
      rw [show pre ++ (t :: rest) ++ (segs.flatten ++ ")" :: post)
          = pre ++ (t :: rest) ++ segs.flatten ++ ")" :: post by simp,
        show pre.length + (t :: rest).length = (pre ++ (t :: rest)).length by simp]
      rw [hrec]
      simp
      omega

/-- Soundness of `parse_expression`: a well-formed segment embedded between
arbitrary other tokens parses to its expression, consuming exactly the
segment. -/
theorem parseE_sound {sg : List String} {e : Expr} (henc : Enc sg e) :
    ∀ (pre post : List String) (fuel : Nat), 2 * sg.length ≤ fuel →
      parseE (pre ++ sg ++ post) fuel pre.length = .ok (e, pre.length + sg.length) := by
  induction henc with
  | atom t ht1 ht2 =>
    intro pre post fuel hfuel
    replace hfuel : 2 ≤ fuel := by simpa using hfuel
    obtain ⟨f, rfl⟩ : ∃ f, fuel = f + 1 := ⟨fuel - 1, by omega⟩
    have hget : (pre ++ [t] ++ post)[pre.length]? = some t := by
      rw [List.append_assoc]
      exact getElem?_append_len pre t post
    simp only [parseE, hget]
    cases hn : number_or_symbol t with
    | int n => simp
    | float q => simp
    | sym s' =>
      obtain rfl := number_or_symbol_sym hn
      simp [ht1, ht2]
    | elist es => exact absurd hn (number_or_symbol_ne_elist t es)
  | compound segs es hlen hencs ih =>
    intro pre post fuel hfuel
    replace hfuel : 2 * segs.flatten.length + 4 ≤ fuel := by
      simp only [List.length_cons, List.length_append, List.length_nil] at hfuel
      omega
    obtain ⟨f, rfl⟩ : ∃ f, fuel = f + 1 := ⟨fuel - 1, by omega⟩
    have hts : pre ++ ("(" :: segs.flatten ++ [")"]) ++ post
        = pre ++ "(" :: (segs.flatten ++ ")" :: post) := by simp
    rw [hts]
    have hget : (pre ++ "(" :: (segs.flatten ++ ")" :: post))[pre.length]? = some "(" :=
      getElem?_append_len pre "(" _
    simp only [parseE, hget, number_or_symbol_lparen]
    rw [if_pos trivial]
    rw [if_neg (by simp only [List.length_append, List.length_cons, ge_iff_le, not_le]; omega)]
    have hL := parseLoop_sound segs es hlen hencs ih (pre ++ ["("]) post []
      f (by omega)
    rw [show pre ++ "(" :: (segs.flatten ++ ")" :: post)
        = pre ++ ["("] ++ segs.flatten ++ ")" :: post by simp,
      show pre.length + 1 = (pre ++ ["("]).length by simp]
    rw [hL]
    simp
    omega

/-- Completeness of the parser workers: a successful `parse_expression`
returns a strictly advanced index and a well-formed segment, and a
successful loop run returns the member expressions of a flattened sequence
of well-formed segments closed by `)`. -/
theorem parse_workers_complete : ∀ fuel : Nat,
    (∀ (ts : List String) (i : Nat) (e : Expr) (j : Nat),
      parseE ts fuel i = .ok (e, j) →
      i < j ∧ j ≤ ts.length ∧ Enc (seg ts i j) e) ∧
    (∀ (ts : List String) (i : Nat) (acc : List Expr) (res : Expr) (j : Nat),
      parseLoop ts fuel i acc = .ok (res, j) →
      i < j ∧ j ≤ ts.length ∧ ts[j - 1]? = some ")" ∧
      ∃ (segs : List (List String)) (es : List Expr),
        res = .elist (acc ++ es) ∧ seg ts i (j - 1) = segs.flatten ∧
        segs.length = es.length ∧ ∀ p ∈ segs.zip es, Enc p.1 p.2) := by
  intro fuel
  induction fuel with
  | zero =>
    exact ⟨(fun ts i e j h => nomatch h), fun ts i acc res j h => nomatch h⟩
  | succ f ih =>
    constructor
    · intro ts i e j hok
      cases hti : ts[i]? with
      | none => simp [parseE, hti] at hok
      | some tok =>
        obtain ⟨hilt, htokeq⟩ := List.getElem?_eq_some_iff.mp hti
        simp only [parseE, hti] at hok
        cases hn : number_or_symbol tok with
        | int n =>
          simp only [hn] at hok
          obtain ⟨he, hj⟩ := Prod.mk.injEq .. ▸ Except.ok.inj hok
          subst he
          refine ⟨by omega, by omega, ?_⟩
          rw [show j = i + 1 from hj.symm, seg_cons hilt (by omega), seg_self, htokeq, ← hn]
          obtain ⟨h1, h2⟩ := number_or_symbol_int_ne_paren hn
          exact Enc.atom tok h1 h2
        | float q =>
          simp only [hn] at hok
          obtain ⟨he, hj⟩ := Prod.mk.injEq .. ▸ Except.ok.inj hok
          subst he
          refine ⟨by omega, by omega, ?_⟩
          rw [show j = i + 1 from hj.symm, seg_cons hilt (by omega), seg_self, htokeq, ← hn]
          obtain ⟨h1, h2⟩ := number_or_symbol_float_ne_paren hn
          exact Enc.atom tok h1 h2
        | sym s' =>
          simp only [hn] at hok
          by_cases h1 : tok = "("
          · rw [if_pos h1] at hok
            by_cases h2 : i + 1 ≥ ts.length
            · rw [if_pos h2] at hok; exact (nomatch hok)
            · rw [if_neg h2] at hok
              obtain ⟨hij, hjle, hrp, segs, es, hres, hseg, hslen, hall⟩ :=
                ih.2 ts (i + 1) [] e j hok
              subst hres
              refine ⟨by omega, hjle, ?_⟩
              obtain ⟨hjlt, hrpe⟩ := List.getElem?_eq_some_iff.mp hrp
              have hji : seg ts i j = tok :: seg ts (i + 1) j :=
                (htokeq ▸ seg_cons hilt (by omega))
              have hj2 : seg ts (i + 1) j = segs.flatten ++ [")"] := by
                rw [show j = (j - 1) + 1 by omega] at hji ⊢
                rw [seg_snoc (by omega) hjlt, hseg, hrpe]
              rw [hji, hj2, h1]
              simpa using Enc.compound segs es hslen hall
          · by_cases h2 : tok = ")"
            · rw [if_neg h1, if_pos h2] at hok; exact (nomatch hok)
            · rw [if_neg h1, if_neg h2] at hok
              obtain ⟨he, hj⟩ := Prod.mk.injEq .. ▸ Except.ok.inj hok
              subst he
              refine ⟨by omega, by omega, ?_⟩
              rw [show j = i + 1 from hj.symm, seg_cons hilt (by omega), seg_self, htokeq]
              rw [show Expr.sym tok = number_or_symbol tok from
                (number_or_symbol_sym hn ▸ hn).symm]
              exact Enc.atom tok h1 h2
        | elist es => exact absurd hn (number_or_symbol_ne_elist tok es)
    · intro ts i acc res j hok
      cases hti : ts[i]? with
      | none => simp [parseLoop, hti] at hok
      | some tok =>
        obtain ⟨hilt, htokeq⟩ := List.getElem?_eq_some_iff.mp hti
        simp only [parseLoop, hti] at hok
        by_cases h1 : tok = ")"
        · rw [if_pos h1] at hok
          obtain ⟨hr, hj⟩ := Prod.mk.injEq .. ▸ Except.ok.inj hok
          subst hr
          refine ⟨by omega, by omega, ?_, [], [], by simp, ?_, rfl, by simp⟩
          · rw [show j - 1 = i by omega, hti, h1]
          · rw [show j - 1 = i by omega, seg_self]
            rfl
        · rw [if_neg h1] at hok
          cases hpe : parseE ts f i with
          | error e0 => rw [hpe] at hok; exact (nomatch hok)
          | ok p =>
            rcases p with ⟨e0, up⟩
            simp only [hpe] at hok
            obtain ⟨hiu, hule, hencE⟩ := ih.1 ts i e0 up hpe
            by_cases h2 : up ≥ ts.length
            · rw [if_pos h2] at hok; exact (nomatch hok)
            · rw [if_neg h2] at hok
              obtain ⟨huj, hjle, hrp, segs, es, hres, hseg, hslen, hall⟩ :=
                ih.2 ts up (acc ++ [e0]) res j hok
              subst hres
              refine ⟨by omega, hjle, hrp, seg ts i up :: segs, e0 :: es,
                by simp, ?_, by simp [hslen], ?_⟩
              · rw [← seg_append (le_of_lt hiu) (by omega : up ≤ j - 1), hseg]
                rfl
              · intro p hp
                rw [List.zip_cons_cons, List.mem_cons] at hp
                rcases hp with rfl | hp
                · exact hencE
                · exact hall p hp

/-- Totality of the parser workers on an in-range index with enough fuel:
the result is a success or a `SchemeSyntaxError`, never the fuel marker
and never an `IndexError`. -/
theorem parse_workers_total : ∀ fuel : Nat,
    (∀ (ts : List String) (i : Nat), i < ts.length → 2 * (ts.length - i) ≤ fuel →
      (∃ v, parseE ts fuel i = .ok v) ∨ parseE ts fuel i = .error .schemeSyntaxError) ∧
    (∀ (ts : List String) (i : Nat) (acc : List Expr), i < ts.length →
      2 * (ts.length - i) + 1 ≤ fuel →
      (∃ v, parseLoop ts fuel i acc = .ok v) ∨
        parseLoop ts fuel i acc = .error .schemeSyntaxError) := by
  intro fuel
  induction fuel with
  | zero =>
    constructor
    · intro ts i h1 h2
      exact absurd h2 (by omega)
    · intro ts i acc h1 h2
      exact absurd h2 (by omega)
  | succ f ih =>
    constructor
    · intro ts i hilt hfu
      simp only [parseE, List.getElem?_eq_getElem hilt]
      cases hn : number_or_symbol ts[i] with
      | int n => exact Or.inl ⟨_, rfl⟩
      | float q => exact Or.inl ⟨_, rfl⟩
      | sym s' =>
        by_cases h1 : ts[i] = "("
        · rw [if_pos h1]
          by_cases h2 : i + 1 ≥ ts.length
          · rw [if_pos h2]; exact Or.inr (by simp)
          · rw [if_neg h2]
            exact ih.2 ts (i + 1) [] (by omega) (by omega)
        · rw [if_neg h1]
          by_cases h2 : ts[i] = ")"
          · rw [if_pos h2]; exact Or.inr (by simp)
          · rw [if_neg h2]; exact Or.inl ⟨_, rfl⟩
      | elist es => exact absurd hn (number_or_symbol_ne_elist ts[i] es)
    · intro ts i acc hilt hfu
      simp only [parseLoop, List.getElem?_eq_getElem hilt]
      by_cases h1 : ts[i] = ")"
      · rw [if_pos h1]; exact Or.inl ⟨_, rfl⟩
      · rw [if_neg h1]
        rcases ih.1 ts i hilt (by omega) with ⟨⟨e0, up⟩, hok⟩ | herr
        · simp only [hok]
          obtain ⟨hiu, hule, -⟩ := (parse_workers_complete f).1 ts i e0 up hok
          by_cases h2 : up ≥ ts.length
          · rw [if_pos h2]; exact Or.inr (by simp)
          · rw [if_neg h2]
            exact ih.2 ts up (acc ++ [e0]) (by omega) (by omega)
        · simp only [herr]
          exact Or.inr (by simp)

/-- A well-formed token list parses to its expression. -/
theorem parse_sound {ts : List String} {e : Expr} (h : Enc ts e) : parse ts = .ok e := by
  have hE := parseE_sound h [] ([] : List String) (2 * ts.length + 2) (by omega)
  simp only [List.nil_append, List.append_nil, List.length_nil, Nat.zero_add] at hE
  unfold parse
  rw [hE]
  simp

/-- A successful parse means the token list was a well-formed encoding. -/
theorem parse_complete {ts : List String} {e : Expr} (h : parse ts = .ok e) : Enc ts e := by
  unfold parse at h
  cases hpe : parseE ts (2 * ts.length + 2) 0 with
  | error e0 => rw [hpe] at h; exact (nomatch h)
  | ok p =>
    rcases p with ⟨e0, j⟩
    simp only [hpe] at h
    by_cases hj : j < ts.length
    · rw [if_pos hj] at h; exact (nomatch h)
    · rw [if_neg hj] at h
      obtain rfl : e0 = e := Except.ok.inj h
      obtain ⟨h0j, hjle, henc⟩ := (parse_workers_complete _).1 ts 0 e0 j hpe
      have hjlen : j = ts.length := by omega
      rw [hjlen] at henc
      rwa [seg_full] at henc

/-- C6: `parse` succeeds on exactly the well-formed token lists.  The first
conjunct: a token list encoding exactly one expression parses to its tree
without error.  The second: on any nonempty token list, `parse` raises
`SchemeSyntaxError` precisely when the list is malformed (unclosed `(`,
stray `)`, or unconsumed trailing tokens — i.e. it encodes no expression);
in particular the result is never any other error.  (The empty token list
is the one list on which `parse` raises a different error, the host
`IndexError` from reading `tokens[0]`.)  The third conjunct is the
spec's example: the tokens of `"(+ 1"` fail with `SchemeSyntaxError`. -/
theorem parse_error_characterisation :
    (∀ (ts : List String) (e : Expr), Enc ts e → parse ts = .ok e) ∧
    (∀ ts : List String, ts ≠ [] →
      (parse ts = .error .schemeSyntaxError ↔ ¬ ∃ e, Enc ts e)) ∧
    parse ["(", "+", "1"] = .error .schemeSyntaxError := by
  refine ⟨fun ts e h => parse_sound h, ?_, rfl⟩
  intro ts hne
  constructor
  · rintro herr ⟨e, henc⟩
    rw [parse_sound henc] at herr
    exact (nomatch herr)
  · intro hnone
    have hlen : 0 < ts.length := List.length_pos.mpr hne
    rcases (parse_workers_total (2 * ts.length + 2)).1 ts 0 hlen (by omega) with
      ⟨⟨e0, j⟩, hok⟩ | herr
    · by_cases hj : j < ts.length
      · unfold parse
        simp only [hok]
        rw [if_pos hj]
      · exfalso
        exact hnone ⟨e0, parse_complete (by unfold parse; simp only [hok]; rw [if_neg hj])⟩
    · unfold parse
      rw [herr]

/-- C6, witness: a single non-parenthesis token parses to its atom, and a
stray `)` fails with `SchemeSyntaxError` (shown through the
characterisation, by refuting every possible derivation). -/
theorem parse_error_characterisation_witness :
    parse ["x"] = .ok (number_or_symbol "x") ∧
    parse [")"] = .error .schemeSyntaxError :=
  ⟨parse_error_characterisation.1 ["x"] (number_or_symbol "x")
      (Enc.atom "x" (by decide) (by decide)),
   (parse_error_characterisation.2.1 [")"] (by decide)).mpr (by
    rintro ⟨e, h⟩
    obtain ⟨t, rest, heq, ht⟩ := h.head_shape
    injection heq with h1 h2
    exact ht h1.symm)⟩

/-- C10: the two interpreter versions have equivalent front ends — on
every source string the two `tokenize` functions return the same token
list, and on every token list the two `parse` functions return the same
expression tree or fail with the same error. -/
theorem front_end_equivalence :
    (∀ source : String, Lisp1.tokenize source = Lisp2.tokenize source) ∧
    (∀ tokens : List String, Lisp1.parse tokens = Lisp2.parse tokens) := by
  constructor
  · intro source
    rfl
  · intro tokens
    simp only [Lisp1.parse, Lisp2.parse,
      (parse_workers_eq (2 * tokens.length + 2) tokens).1]

end Lisp2
